import Mathlib

/-! pouch: configuration translation and identity resolution

A shallow embedding of the container-configuration parsers of `cli/container.go`
and of the name / ID-prefix resolution of `daemon/mgr/container_utils.go`,
together with the properties checked against them.

Conventions of the embedding.

* A Go `string` is the list of its characters (`GoString`).  The separators the
  sources split on (`:` and `=`) are single ASCII characters, so splitting the
  character sequence and splitting the byte sequence agree.
* A Go `(value, error)` result is an `Except Error value`.
* Go's `int` and `int64` are the 64-bit signed integers; they are carried as `Int`
  and the places where the range matters (`strconv.Atoi`) check it explicitly.
* A Go `map[string]V` is an association list with at most one entry per key.
-/

namespace Pouch

/-! ## Strings -/

/-- A Go string, as the sequence of its characters. -/
abbrev GoString := List Char

/-- The text before and after the first occurrence of `sep` in `s`, when there is one:
`s[:m]` and `s[m+1:]` for `m := strings.Index(s, sep)`. -/
def Cut (sep : Char) : GoString → Option (GoString × GoString)
  | [] => none
  | c :: cs =>
    if c = sep then some ([], cs)
    else match Cut sep cs with
      | none => none
      | some (a, b) => some (c :: a, b)

/-- Go `strings.Count(s, sep)` for a one-character separator. -/
def Count (s : GoString) (sep : Char) : Nat :=
  s.count sep

/-- Go `strings.SplitN(s, sep, n)` for a one-character separator and `n ≥ 0`:
at most `n` pieces, the last one being the unsplit remainder. -/
def SplitN (s : GoString) (sep : Char) : Nat → List GoString
  | 0 => []
  | 1 => [s]
  | n + 2 =>
    match Cut sep s with
    | none => [s]
    | some (a, b) => a :: SplitN b sep (n + 1)

/-- Go `strings.Split(s, sep)` for a one-character separator: `genSplit` with
`n = Count(s, sep) + 1` pieces. -/
def Split (s : GoString) (sep : Char) : List GoString :=
  SplitN s sep (Count s sep + 1)

/-! ## Errors -/

/-- The two sentinel errors of package `strconv`. -/
inductive NumErrKind where
  | ErrSyntax
  | ErrRange
  deriving DecidableEq

/-- Go `error` values.  A formatted message is kept as its format string and its
arguments instead of being rendered. -/
inductive Error where
  /-- The sentinel `errtypes.ErrTooMany`. -/
  | ErrTooMany
  /-- The sentinel `errtypes.ErrNotfound`. -/
  | ErrNotfound
  /-- The result of `errors.Wrap(cause, message)`. -/
  | Wrap (cause : Error) (message : GoString)
  /-- The result of `errors.Wrapf(cause, format, args...)` with string arguments. -/
  | Wrapf (cause : Error) (format : GoString) (args : List GoString)
  /-- The result of `fmt.Errorf(format, args...)` with string arguments. -/
  | Errorf (format : GoString) (args : List GoString)
  /-- The result of `fmt.Errorf(format, args..., err)`: string arguments followed by an
  error argument. -/
  | ErrorfErr (format : GoString) (args : List GoString) (cause : Error)
  /-- The result of `fmt.Errorf(format, n)` with an integer argument. -/
  | ErrorfInt (format : GoString) (arg : Int)
  /-- A `*strconv.NumError`. -/
  | NumError (func : GoString) (num : GoString) (kind : NumErrKind)
  /-- An error produced by a collaborator outside the sources. -/
  | External (message : GoString)
  deriving DecidableEq

deriving instance DecidableEq for Except

/-! ## strconv.Atoi -/

/-- Largest value of a `uint64`. -/
def maxUint64 : Nat := 2 ^ 64 - 1

/-- The loop of `strconv.ParseUint(s, 10, 64)`: left to right, a character that is
not a decimal digit is a syntax error, a value that leaves the `uint64` range is a
range error. -/
def parseUintLoop : List Char → Nat → Except NumErrKind Nat
  | [], n => .ok n
  | c :: cs, n =>
    if c < '0' ∨ '9' < c then .error .ErrSyntax
    else if n ≥ maxUint64 / 10 + 1 then .error .ErrRange
    else
      let n1 := n * 10 + (c.toNat - '0'.toNat)
      if n1 > maxUint64 then .error .ErrRange
      else parseUintLoop cs n1

/-- Go `strconv.ParseUint(s, 10, 64)`, without the rendered error. -/
def ParseUint (s : GoString) : Except NumErrKind Nat :=
  if s = [] then .error .ErrSyntax else parseUintLoop s 0

/-- Go `strconv.ParseInt(s, 10, 64)`, without the rendered error: an optional sign,
then decimal digits, the value within `[-2^63, 2^63 - 1]`. -/
def ParseInt (s : GoString) : Except NumErrKind Int :=
  match s with
  | [] => .error .ErrSyntax
  | c :: cs =>
    let neg := decide (c = '-')
    let digits := if c = '+' ∨ c = '-' then cs else s
    match ParseUint digits with
    | .error .ErrSyntax => .error .ErrSyntax
    | .error .ErrRange => .error .ErrRange
    | .ok un =>
      if !neg ∧ un ≥ 2 ^ 63 then .error .ErrRange
      else if neg ∧ un > 2 ^ 63 then .error .ErrRange
      else .ok (if neg then -(un : Int) else (un : Int))

/-- Go `strconv.Atoi(s)` on a platform whose `int` has 64 bits: `ParseInt(s, 10, 0)`
with the error renamed (the fast path for short strings computes the same result). -/
def Atoi (s : GoString) : Except Error Int :=
  match ParseInt s with
  | .error kind => .error (.NumError "Atoi".toList s kind)
  | .ok n => .ok n

/-! ## Restart policy (`cli/container.go`) -/

/-- The type `types.RestartPolicy`. -/
structure RestartPolicy where
  /-- The field `Name`. -/
  Name : GoString := []
  /-- The field `MaximumRetryCount` (an `int64`). -/
  MaximumRetryCount : Int := 0
  deriving DecidableEq

/-- The function `parseRestartPolicy` of `cli/container.go`. -/
def parseRestartPolicy (restartPolicy : GoString) : Except Error RestartPolicy :=
  if restartPolicy = [] then
    .ok { Name := "no".toList }
  else
    let fields := Split restartPolicy ':'
    let name := fields.getD 0 []
    if name = "always".toList ∨ name = "unless-stopped".toList ∨ name = "no".toList then
      .ok { Name := name }
    else if name = "on-failure".toList then
      if fields.length > 2 then
        .error (.Errorf "invalid restart policy: %s".toList [restartPolicy])
      else if fields.length = 2 then
        match Atoi (fields.getD 1 []) with
        | .error err => .error (.ErrorfErr "invalid restart policy: %v".toList [] err)
        | .ok n => .ok { Name := name, MaximumRetryCount := n }
      else
        .ok { Name := name }
    else
      .error (.Errorf "invalid restart policy: %s".toList [restartPolicy])


/-! ## Maps -/

/-- A Go `map[string]V`: an association list with at most one entry per key. -/
abbrev GoMap (V : Type) := List (GoString × V)

/-- The assignment `m[k] = v`: the value of an existing key is replaced in place, a new
key is added. -/
def GoMap.set {V : Type} : GoMap V → GoString → V → GoMap V
  | [], k, v => [(k, v)]
  | (k0, v0) :: rest, k, v =>
    if k0 = k then (k, v) :: rest else (k0, v0) :: GoMap.set rest k v

/-- The lookup `v, ok := m[k]`. -/
def GoMap.get {V : Type} : GoMap V → GoString → Option V
  | [], _ => none
  | (k0, v0) :: rest, k => if k0 = k then some v0 else GoMap.get rest k

/-! ## strings.Fields -/

/-- Go `unicode.IsSpace`. -/
def IsSpace (r : Char) : Bool :=
  let n := r.toNat
  (0x09 ≤ n ∧ n ≤ 0x0d) ∨ n = 0x20 ∨ n = 0x85 ∨ n = 0xA0 ∨ n = 0x1680
    ∨ (0x2000 ≤ n ∧ n ≤ 0x200a) ∨ n = 0x2028 ∨ n = 0x2029 ∨ n = 0x202f
    ∨ n = 0x205f ∨ n = 0x3000

/-- The scan of `strings.FieldsFunc`: `cur` is the field being read, if any. -/
def fieldsLoop (f : Char → Bool) : List Char → Option GoString → List GoString
  | [], none => []
  | [], some w => [w]
  | c :: cs, cur =>
    if f c then
      match cur with
      | none => fieldsLoop f cs none
      | some w => w :: fieldsLoop f cs none
    else
      fieldsLoop f cs (some (cur.getD [] ++ [c]))

/-- Go `strings.FieldsFunc(s, f)`: the maximal runs of characters not satisfying `f`. -/
def FieldsFunc (s : GoString) (f : Char → Bool) : List GoString :=
  fieldsLoop f s none

/-- Go `strings.Fields(s)`. -/
def Fields (s : GoString) : List GoString :=
  FieldsFunc s IsSpace

/-! ## Configuration types (`apis/types`) -/

/-- The type `types.DeviceMapping`. -/
structure DeviceMapping where
  /-- The field `PathOnHost`. -/
  PathOnHost : GoString := []
  /-- The field `PathInContainer`. -/
  PathInContainer : GoString := []
  /-- The field `CgroupPermissions`. -/
  CgroupPermissions : GoString := []
  deriving DecidableEq

/-- The type `types.WeightDevice`. -/
structure WeightDevice where
  /-- The field `Path`. -/
  Path : GoString := []
  /-- The field `Weight` (a `uint16`). -/
  Weight : Nat := 0
  deriving DecidableEq

/-- The type `types.ThrottleDevice`. -/
structure ThrottleDevice where
  /-- The field `Path`. -/
  Path : GoString := []
  /-- The field `Rate` (a `uint64`). -/
  Rate : Nat := 0
  deriving DecidableEq

/-- The type `types.PortBinding`. -/
structure PortBinding where
  /-- The field `HostIP`. -/
  HostIP : GoString := []
  /-- The field `HostPort`. -/
  HostPort : GoString := []
  deriving DecidableEq

/-- The type `types.EndpointIPAMConfig`, with the field `config` sets. -/
structure EndpointIPAMConfig where
  /-- The field `IPV4Address`. -/
  IPV4Address : GoString := []
  deriving DecidableEq

/-- The type `types.EndpointSettings`, with the fields `config` sets. -/
structure EndpointSettings where
  /-- The field `IPAddress`. -/
  IPAddress : GoString := []
  /-- The field `IPAMConfig` (a pointer, `none` for nil). -/
  IPAMConfig : Option EndpointIPAMConfig := none
  deriving DecidableEq

/-- The type `types.NetworkingConfig`. -/
structure NetworkingConfig where
  /-- The field `EndpointsConfig`. -/
  EndpointsConfig : GoMap EndpointSettings := []
  deriving DecidableEq

/-- The type `types.Resources`, with the fields `config` sets. -/
structure Resources where
  /-- The field `CPUShares`. -/
  CPUShares : Int := 0
  /-- The field `CpusetCpus`. -/
  CpusetCpus : GoString := []
  /-- The field `CpusetMems`. -/
  CpusetMems : GoString := []
  /-- The field `Devices`. -/
  Devices : List DeviceMapping := []
  /-- The field `Memory`. -/
  Memory : Int := 0
  /-- The field `MemorySwap`. -/
  MemorySwap : Int := 0
  /-- The field `MemorySwappiness` (the value behind the pointer). -/
  MemorySwappiness : Int := 0
  /-- The field `MemoryWmarkRatio` (the value behind the pointer). -/
  MemoryWmarkRatio : Int := 0
  /-- The field `MemoryExtra` (the value behind the pointer). -/
  MemoryExtra : Int := 0
  /-- The field `MemoryForceEmptyCtl`. -/
  MemoryForceEmptyCtl : Int := 0
  /-- The field `ScheLatSwitch`. -/
  ScheLatSwitch : Int := 0
  /-- The field `OomKillDisable` (the value behind the pointer). -/
  OomKillDisable : Bool := false
  /-- The field `BlkioWeight` (a `uint16`). -/
  BlkioWeight : Nat := 0
  /-- The field `BlkioWeightDevice`. -/
  BlkioWeightDevice : List WeightDevice := []
  /-- The field `BlkioDeviceReadBps`. -/
  BlkioDeviceReadBps : List ThrottleDevice := []
  /-- The field `BlkioDeviceReadIOps`. -/
  BlkioDeviceReadIOps : List ThrottleDevice := []
  /-- The field `BlkioDeviceWriteBps`. -/
  BlkioDeviceWriteBps : List ThrottleDevice := []
  /-- The field `BlkioDeviceWriteIOps`. -/
  BlkioDeviceWriteIOps : List ThrottleDevice := []
  /-- The field `IntelRdtL3Cbm`. -/
  IntelRdtL3Cbm : GoString := []
  /-- The field `CgroupParent`. -/
  CgroupParent : GoString := []
  deriving DecidableEq

/-- The type `types.ContainerConfig`, with the fields `config` sets. -/
structure ContainerConfig where
  /-- The field `Tty`. -/
  Tty : Bool := false
  /-- The field `Env`. -/
  Env : List GoString := []
  /-- The field `Entrypoint`. -/
  Entrypoint : List GoString := []
  /-- The field `WorkingDir`. -/
  WorkingDir : GoString := []
  /-- The field `User`. -/
  User : GoString := []
  /-- The field `Hostname`. -/
  Hostname : GoString := []
  /-- The field `Labels`. -/
  Labels : GoMap GoString := []
  /-- The field `Rich`. -/
  Rich : Bool := false
  /-- The field `RichMode`. -/
  RichMode : GoString := []
  /-- The field `InitScript`. -/
  InitScript : GoString := []
  /-- The field `ExposedPorts`: a `map[string]interface{}` whose values are all the
  empty struct. -/
  ExposedPorts : GoMap Unit := []
  /-- The field `DiskQuota`. -/
  DiskQuota : GoMap GoString := []
  deriving DecidableEq

/-- The type `types.HostConfig`, with the fields `config` sets. -/
structure HostConfig where
  /-- The field `Binds`. -/
  Binds : List GoString := []
  /-- The field `Runtime`. -/
  Runtime : GoString := []
  /-- The embedded `Resources`. -/
  Resources : Resources := {}
  /-- The field `EnableLxcfs`. -/
  EnableLxcfs : Bool := false
  /-- The field `Privileged`. -/
  Privileged : Bool := false
  /-- The field `RestartPolicy`. -/
  RestartPolicy : RestartPolicy := {}
  /-- The field `IpcMode`. -/
  IpcMode : GoString := []
  /-- The field `PidMode`. -/
  PidMode : GoString := []
  /-- The field `UTSMode`. -/
  UTSMode : GoString := []
  /-- The field `GroupAdd`. -/
  GroupAdd : List GoString := []
  /-- The field `Sysctls`. -/
  Sysctls : GoMap GoString := []
  /-- The field `SecurityOpt`. -/
  SecurityOpt : List GoString := []
  /-- The field `NetworkMode`. -/
  NetworkMode : GoString := []
  /-- The field `CapAdd`. -/
  CapAdd : List GoString := []
  /-- The field `CapDrop`. -/
  CapDrop : List GoString := []
  /-- The field `PortBindings`. -/
  PortBindings : GoMap (List PortBinding) := []
  /-- The field `OomScoreAdj`. -/
  OomScoreAdj : Int := 0
  deriving DecidableEq

/-- The type `types.ContainerCreateConfig`. -/
structure ContainerCreateConfig where
  /-- The embedded `ContainerConfig`. -/
  ContainerConfig : ContainerConfig := {}
  /-- The field `HostConfig`. -/
  HostConfig : HostConfig := {}
  /-- The field `NetworkingConfig`. -/
  NetworkingConfig : NetworkingConfig := {}
  deriving DecidableEq

/-! ## External collaborators of `config` -/

/-- The functions `config` calls in packages whose sources are not among the files:
`go-units`, `pkg/runconfig`, `net` and `go-connections/nat`.  The definitions below
take them as a parameter. -/
structure Libs where
  /-- The function `units.RAMInBytes`. -/
  RAMInBytes : GoString → Except Error Int
  /-- The function `runconfig.ParseDevice`. -/
  ParseDevice : GoString → Except Error DeviceMapping
  /-- The function `runconfig.ValidDeviceMode`. -/
  ValidDeviceMode : GoString → Bool
  /-- Whether `net.ParseIP(s)` is not nil. -/
  ParseIP : GoString → Bool
  /-- The function `nat.ParsePortSpecs`: the port set and the port bindings, each as a
  map keyed by the `nat.Port` string. -/
  ParsePortSpecs : List GoString → Except Error (GoMap Unit × GoMap (List PortBinding))
  /-- The function `nat.SplitProtoPort`: protocol and port. -/
  SplitProtoPort : GoString → GoString × GoString
  /-- The function `nat.ParsePortRange`: first and last port of the range, both
  16-bit port numbers. -/
  ParsePortRange : GoString → Except Error (Nat × Nat)
  /-- The function `nat.NewPort(proto, port)`. -/
  NewPort : GoString → GoString → Except Error GoString

/-! ## The command-line container specification (`cli/container.go`) -/

/-- The struct `container` of `cli/container.go`.  The four block-I/O device options
are carried as the lists their `value()` methods return. -/
structure container where
  /-- The field `labels`. -/
  labels : List GoString := []
  /-- The field `name`. -/
  name : GoString := []
  /-- The field `tty`. -/
  tty : Bool := false
  /-- The field `volume`. -/
  volume : List GoString := []
  /-- The field `runtime`. -/
  runtime : GoString := []
  /-- The field `env`. -/
  env : List GoString := []
  /-- The field `entrypoint`. -/
  entrypoint : GoString := []
  /-- The field `workdir`. -/
  workdir : GoString := []
  /-- The field `user`. -/
  user : GoString := []
  /-- The field `groupAdd`. -/
  groupAdd : List GoString := []
  /-- The field `hostname`. -/
  hostname : GoString := []
  /-- The field `cpushare`. -/
  cpushare : Int := 0
  /-- The field `cpusetcpus`. -/
  cpusetcpus : GoString := []
  /-- The field `cpusetmems`. -/
  cpusetmems : GoString := []
  /-- The field `memory`. -/
  memory : GoString := []
  /-- The field `memorySwap`. -/
  memorySwap : GoString := []
  /-- The field `memorySwappiness`. -/
  memorySwappiness : Int := 0
  /-- The field `memoryWmarkRatio`. -/
  memoryWmarkRatio : Int := 0
  /-- The field `memoryExtra`. -/
  memoryExtra : Int := 0
  /-- The field `memoryForceEmptyCtl`. -/
  memoryForceEmptyCtl : Int := 0
  /-- The field `scheLatSwitch`. -/
  scheLatSwitch : Int := 0
  /-- The field `oomKillDisable`. -/
  oomKillDisable : Bool := false
  /-- The field `devices`. -/
  devices : List GoString := []
  /-- The field `enableLxcfs`. -/
  enableLxcfs : Bool := false
  /-- The field `privileged`. -/
  privileged : Bool := false
  /-- The field `restartPolicy`. -/
  restartPolicy : GoString := []
  /-- The field `ipcMode`. -/
  ipcMode : GoString := []
  /-- The field `pidMode`. -/
  pidMode : GoString := []
  /-- The field `utsMode`. -/
  utsMode : GoString := []
  /-- The field `sysctls`. -/
  sysctls : List GoString := []
  /-- The field `networks`. -/
  networks : List GoString := []
  /-- The field `ports`. -/
  ports : List GoString := []
  /-- The field `expose`. -/
  expose : List GoString := []
  /-- The field `publicAll`. -/
  publicAll : Bool := false
  /-- The field `securityOpt`. -/
  securityOpt : List GoString := []
  /-- The field `capAdd`. -/
  capAdd : List GoString := []
  /-- The field `capDrop`. -/
  capDrop : List GoString := []
  /-- The field `blkioWeight`. -/
  blkioWeight : Nat := 0
  /-- The value of the field `blkioWeightDevice`. -/
  blkioWeightDevice : List WeightDevice := []
  /-- The value of the field `blkioDeviceReadBps`. -/
  blkioDeviceReadBps : List ThrottleDevice := []
  /-- The value of the field `blkioDeviceWriteBps`. -/
  blkioDeviceWriteBps : List ThrottleDevice := []
  /-- The value of the field `blkioDeviceReadIOps`. -/
  blkioDeviceReadIOps : List ThrottleDevice := []
  /-- The value of the field `blkioDeviceWriteIOps`. -/
  blkioDeviceWriteIOps : List ThrottleDevice := []
  /-- The field `IntelRdtL3Cbm`. -/
  IntelRdtL3Cbm : GoString := []
  /-- The field `diskQuota`. -/
  diskQuota : List GoString := []
  /-- The field `oomScoreAdj`. -/
  oomScoreAdj : Int := 0
  /-- The field `cgroupParent`. -/
  cgroupParent : GoString := []
  /-- The field `rich`. -/
  rich : Bool := false
  /-- The field `richMode`. -/
  richMode : GoString := []
  /-- The field `initScript`. -/
  initScript : GoString := []

/-- The function `parseSysctl`. -/
def parseSysctl (sysctl : GoString) : Except Error (List GoString) :=
  let fields := SplitN sysctl '=' 2
  if fields.length ≠ 2 then
    .error (.Errorf "invalid sysctl %s: sysctl must be in format of key=value".toList [sysctl])
  else .ok fields

/-- The function `parseSysctls`; the accumulator is the map `results`. -/
def parseSysctls (sysctls : List GoString) : Except Error (GoMap GoString) :=
  sysctls.foldlM
    (fun results sysctl =>
      match parseSysctl sysctl with
      | .error err => .error err
      | .ok fields => .ok (results.set (fields.getD 0 []) (fields.getD 1 [])))
    []

/-- The function `parseLabel`. -/
def parseLabel (label : GoString) : Except Error (List GoString) :=
  let fields := SplitN label '=' 2
  if fields.length ≠ 2 then
    .error (.Errorf "invalid label %s: label must be in format of key=value".toList [label])
  else .ok fields

/-- The function `parseLabels`; the accumulator is the map `results`. -/
def parseLabels (labels : List GoString) : Except Error (GoMap GoString) :=
  labels.foldlM
    (fun results label =>
      match parseLabel label with
      | .error err => .error err
      | .ok fields => .ok (results.set (fields.getD 0 []) (fields.getD 1 [])))
    []

/-- The function `parseDevice`. -/
def parseDevice (L : Libs) (device : GoString) : Except Error DeviceMapping :=
  match L.ParseDevice device with
  | .error err => .error (.ErrorfErr "parse devices error: %s".toList [] err)
  | .ok deviceMapping =>
    if !L.ValidDeviceMode deviceMapping.CgroupPermissions then
      .error (.Errorf "%s invalid device mode: %s".toList
        [device, deviceMapping.CgroupPermissions])
    else .ok deviceMapping

/-- The function `parseDeviceMappings`; the accumulator is the slice `results`. -/
def parseDeviceMappings (L : Libs) (devices : List GoString) :
    Except Error (List DeviceMapping) :=
  devices.foldlM
    (fun results device =>
      match parseDevice L device with
      | .error err => .error err
      | .ok deviceMapping => .ok (results ++ [deviceMapping]))
    []

/-- The function `parseMemory`. -/
def parseMemory (L : Libs) (memory : GoString) : Except Error Int :=
  if memory = [] then .ok 0
  else
    match L.RAMInBytes memory with
    | .error err => .error err
    | .ok result => .ok result

/-- The function `parseMemorySwap`. -/
def parseMemorySwap (L : Libs) (memorySwap : GoString) : Except Error Int :=
  if memorySwap = [] then .ok 0
  else if memorySwap = "-1".toList then .ok (-1)
  else
    match L.RAMInBytes memorySwap with
    | .error err => .error err
    | .ok result => .ok result

/-- The function `validateMemorySwappiness`: `none` is the nil error. -/
def validateMemorySwappiness (memorySwappiness : Int) : Option Error :=
  if memorySwappiness ≠ -1 ∧ (memorySwappiness < 0 ∨ memorySwappiness > 100) then
    some (.ErrorfInt "invalid memory swappiness: %d (its range is -1 or 0-100)".toList
      memorySwappiness)
  else none

/-- The function `parseIntelRdt`. -/
def parseIntelRdt (intelRdtL3Cbm : GoString) : Except Error GoString :=
  .ok intelRdtL3Cbm

/-- The function `parseNetwork`: name, parameter and mode of a network descriptor. -/
def parseNetwork (L : Libs) (network : GoString) :
    Except Error (GoString × GoString × GoString) :=
  if network = [] then
    .error (.Errorf "invalid network: cannot be empty".toList [])
  else
    let arr := Split network ':'
    if arr.length = 1 then
      if L.ParseIP (arr.getD 0 []) then .ok ([], arr.getD 0 [], [])
      else .ok (arr.getD 0 [], [], [])
    else if arr.length = 2 then
      let name := arr.getD 0 []
      if name = "container".toList then .ok (name, arr.getD 1 [], [])
      else if L.ParseIP (arr.getD 1 []) then .ok (name, arr.getD 1 [], [])
      else .ok (name, [], arr.getD 1 [])
    else
      .ok (arr.getD 0 [], arr.getD 1 [], arr.getD 2 [])

/-- The function `parseDiskQuota`; the accumulator is the map `quotaMaps`. -/
def parseDiskQuota (quotas : List GoString) : Except Error (GoMap GoString) :=
  quotas.foldlM
    (fun quotaMaps quota =>
      if quota = [] then
        .error (.Errorf "invalid format for disk quota: %s".toList [quota])
      else
        let parts := Split quota '='
        if parts.length = 1 then .ok (quotaMaps.set "/".toList (parts.getD 0 []))
        else if parts.length = 2 then .ok (quotaMaps.set (parts.getD 0 []) (parts.getD 1 []))
        else .error (.Errorf "invalid format for disk quota: %s".toList [quota]))
    []

/-- The function `validateOOMScore`: `none` is the nil error. -/
def validateOOMScore (score : Int) : Option Error :=
  if score < -1000 ∨ score > 1000 then
    some (.Errorf "oom-score-adj should be in range [-1000, 1000]".toList [])
  else none

/-- The state of the loop over `c.networks` in `config`: the variable `networkMode`
and the map `networkingConfig.EndpointsConfig`. -/
structure NetworkState where
  /-- The variable `networkMode`. -/
  networkMode : GoString := []
  /-- The map `networkingConfig.EndpointsConfig`. -/
  EndpointsConfig : GoMap EndpointSettings := []
  deriving DecidableEq

/-- One iteration of the loop over `c.networks` in `config`. -/
def configNetwork (L : Libs) (st : NetworkState) (network : GoString) :
    Except Error NetworkState :=
  match parseNetwork L network with
  | .error err => .error err
  | .ok (name, parameter, mode) =>
    let networkMode :=
      if st.networkMode = [] ∨ mode = "mode".toList then name else st.networkMode
    if name = "container".toList then
      .ok { st with networkMode := name ++ ":".toList ++ parameter }
    else if L.ParseIP parameter then
      .ok { networkMode := networkMode,
            EndpointsConfig := st.EndpointsConfig.set name
              { IPAddress := parameter, IPAMConfig := some { IPV4Address := parameter } } }
    else
      .ok { st with networkMode := networkMode }

/-- The network part of `config`: the initial `networkMode` (`bridge` for an empty
list), the empty endpoint map, and the loop over `c.networks`. -/
def configNetworks (L : Libs) (networks : List GoString) : Except Error NetworkState :=
  networks.foldlM (configNetwork L)
    { networkMode := if networks.length = 0 then "bridge".toList else [] }

/-- Go `strconv.FormatUint(i, 10)`. -/
def FormatUint (i : Nat) : GoString :=
  Nat.toDigits 10 i

/-- The inner loop of the `--expose` handling in `config`: the ports `start`, ...,
`start + count - 1` of protocol `proto` are added to `ports` unless present. -/
def exposeRange (L : Libs) (proto : GoString) :
    Nat → Nat → GoMap Unit → Except Error (GoMap Unit)
  | _, 0, ports => .ok ports
  | start, count + 1, ports =>
    match L.NewPort proto (FormatUint start) with
    | .error err => .error err
    | .ok p =>
      exposeRange L proto (start + 1) count
        (if (ports.get p).isSome then ports else ports.set p ())

/-- One iteration of the loop over `c.expose` in `config`. -/
def configExpose (L : Libs) (ports : GoMap Unit) (e : GoString) : Except Error (GoMap Unit) :=
  if ':' ∈ e then
    .error (.Errorf "invalid port format for --expose: %s".toList [e])
  else
    let (proto, port) := L.SplitProtoPort e
    match L.ParsePortRange port with
    | .error err =>
      .error (.ErrorfErr "invalid range format for --expose: %s, error: %s".toList [e] err)
    | .ok (start, last) => exposeRange L proto start (last + 1 - start) ports

/-- The method `config` of `cli/container.go`. -/
def container.config (L : Libs) (c : container) : Except Error ContainerCreateConfig := do
  let labels ← parseLabels c.labels
  if let some err := validateMemorySwappiness c.memorySwappiness then throw err
  let memory ← parseMemory L c.memory
  let memorySwap ← parseMemorySwap L c.memorySwap
  let intelRdtL3Cbm ← parseIntelRdt c.IntelRdtL3Cbm
  let deviceMappings ← parseDeviceMappings L c.devices
  let restartPolicy ← parseRestartPolicy c.restartPolicy
  let sysctls ← parseSysctls c.sysctls
  let diskQuota ← parseDiskQuota c.diskQuota
  if let some err := validateOOMScore c.oomScoreAdj then throw err
  let net ← configNetworks L c.networks
  let (tmpPorts, tmpPortBindings) ← L.ParsePortSpecs c.ports
  let ports : GoMap Unit := tmpPorts.foldl (fun ports np => ports.set np.1 np.2) []
  let portBindings : GoMap (List PortBinding) :=
    tmpPortBindings.foldl (fun portBindings npbs => portBindings.set npbs.1 npbs.2) []
  let ports ← c.expose.foldlM (configExpose L) ports
  return {
    ContainerConfig := {
      Tty := c.tty
      Env := c.env
      Entrypoint := Fields c.entrypoint
      WorkingDir := c.workdir
      User := c.user
      Hostname := c.hostname
      Labels := labels
      Rich := c.rich
      RichMode := c.richMode
      InitScript := c.initScript
      ExposedPorts := ports
      DiskQuota := diskQuota }
    HostConfig := {
      Binds := c.volume
      Runtime := c.runtime
      Resources := {
        CPUShares := c.cpushare
        CpusetCpus := c.cpusetcpus
        CpusetMems := c.cpusetmems
        Devices := deviceMappings
        Memory := memory
        MemorySwap := memorySwap
        MemorySwappiness := c.memorySwappiness
        MemoryWmarkRatio := c.memoryWmarkRatio
        MemoryExtra := c.memoryExtra
        MemoryForceEmptyCtl := c.memoryForceEmptyCtl
        ScheLatSwitch := c.scheLatSwitch
        OomKillDisable := c.oomKillDisable
        BlkioWeight := c.blkioWeight
        BlkioWeightDevice := c.blkioWeightDevice
        BlkioDeviceReadBps := c.blkioDeviceReadBps
        BlkioDeviceReadIOps := c.blkioDeviceReadIOps
        BlkioDeviceWriteBps := c.blkioDeviceWriteBps
        BlkioDeviceWriteIOps := c.blkioDeviceWriteIOps
        IntelRdtL3Cbm := intelRdtL3Cbm
        CgroupParent := c.cgroupParent }
      EnableLxcfs := c.enableLxcfs
      Privileged := c.privileged
      RestartPolicy := restartPolicy
      IpcMode := c.ipcMode
      PidMode := c.pidMode
      UTSMode := c.utsMode
      GroupAdd := c.groupAdd
      Sysctls := sysctls
      SecurityOpt := c.securityOpt
      NetworkMode := net.networkMode
      CapAdd := c.capAdd
      CapDrop := c.capDrop
      PortBindings := portBindings
      OomScoreAdj := c.oomScoreAdj }
    NetworkingConfig := { EndpointsConfig := net.EndpointsConfig } }

/-! ## A concrete choice of the collaborators -/

/-- The loop of `net.dtoi`: the decimal number at the start of `s`, the count of
characters it takes, and whether there is one below `0xFFFFFF`. -/
def dtoiLoop : List Char → Nat → Nat → Nat × Nat × Bool
  | [], n, i => if i = 0 then (0, 0, false) else (n, i, true)
  | c :: cs, n, i =>
    if '0' ≤ c ∧ c ≤ '9' then
      let n1 := n * 10 + (c.toNat - '0'.toNat)
      if n1 ≥ 0xFFFFFF then (0xFFFFFF, i, false) else dtoiLoop cs n1 (i + 1)
    else if i = 0 then (0, 0, false) else (n, i, true)

/-- The loop of `net.parseIPv4` over the octets still to read; `first` holds for the
first octet, which no dot precedes. -/
def parseIPv4Loop : Nat → Bool → List Char → Bool
  | 0, _, s => s = []
  | k + 1, first, s =>
    if s = [] then false
    else
      let afterDot : Option (List Char) :=
        if first then some s
        else match s with
          | '.' :: r => some r
          | _ => none
      match afterDot with
      | none => false
      | some s1 =>
        match dtoiLoop s1 0 0 with
        | (n, taken, ok) =>
          if !ok ∨ n > 0xFF then false else parseIPv4Loop k false (s1.drop taken)

/-- Whether `net.ParseIP(s)` is not nil, for a string without `:`: the dotted-decimal
IPv4 form of `net.parseIPv4` (four decimal octets of value at most 255).  A string
whose first `.` or `:` is a `:` goes to the IPv6 parser in `net`, which is not
described here; the answer given for it is `false`.  No segment of a descriptor split
on `:` is such a string. -/
def ParseIPv4 (s : GoString) : Bool :=
  match s.find? (fun c => c = '.' ∨ c = ':') with
  | some '.' => parseIPv4Loop 4 true s
  | _ => false

/-- A concrete choice of the collaborators, used to evaluate `config` on a
specification that names no memory size, device, port or expose entry: `ParseIP` is
`ParseIPv4`, `nat.ParsePortSpecs` returns two empty maps for the empty list, and
every call not reached by such a specification reports an error. -/
def stdLibs : Libs where
  RAMInBytes := fun _ => .error (.External "units.RAMInBytes".toList)
  ParseDevice := fun _ => .error (.External "runconfig.ParseDevice".toList)
  ValidDeviceMode := fun _ => false
  ParseIP := ParseIPv4
  ParsePortSpecs := fun specs =>
    if specs = [] then .ok ([], []) else .error (.External "nat.ParsePortSpecs".toList)
  SplitProtoPort := fun _ => ([], [])
  ParsePortRange := fun _ => .error (.External "nat.ParsePortRange".toList)
  NewPort := fun _ _ => .error (.External "nat.NewPort".toList)

/-! ## The collaborators of the size and port options -/

/-- The loop of `strconv.ParseUint(s, 10, 16)`: as `parseUintLoop`, with the values of a
`uint16`. -/
def parseUint16Loop : List Char → Nat → Except NumErrKind Nat
  | [], n => .ok n
  | c :: cs, n =>
    if c < '0' ∨ '9' < c then .error .ErrSyntax
    else if n ≥ maxUint64 / 10 + 1 then .error .ErrRange
    else
      let n1 := n * 10 + (c.toNat - '0'.toNat)
      if n1 > 2 ^ 16 - 1 then .error .ErrRange
      else parseUint16Loop cs n1

/-- Go `strconv.ParseUint(s, 10, 16)`, with the error of `strconv`. -/
def ParseUint16 (s : GoString) : Except Error Nat :=
  match (if s = [] then .error .ErrSyntax else parseUint16Loop s 0) with
  | .error kind => .error (.NumError "ParseUint".toList s kind)
  | .ok n => .ok n

/-- The function `nat.SplitProtoPort` of `go-connections`: protocol and port of
`port/proto`, the protocol being `tcp` when none is given. -/
def SplitProtoPort (rawPort : GoString) : GoString × GoString :=
  let parts := Split rawPort '/'
  if rawPort.length = 0 ∨ parts.length = 0 ∨ (parts.getD 0 []).length = 0 then ([], [])
  else if parts.length = 1 then ("tcp".toList, rawPort)
  else if (parts.getD 1 []).length = 0 then ("tcp".toList, parts.getD 0 [])
  else (parts.getD 1 [], parts.getD 0 [])

/-- The function `nat.ParsePortRange` of `go-connections`: first and last port of
`port` or `first-last`. -/
def ParsePortRange (ports : GoString) : Except Error (Nat × Nat) :=
  if ports = [] then .error (.Errorf "Empty string specified for ports.".toList [])
  else if '-' ∉ ports then
    match ParseUint16 ports with
    | .error err => .error err
    | .ok start => .ok (start, start)
  else
    let parts := Split ports '-'
    match ParseUint16 (parts.getD 0 []) with
    | .error err => .error err
    | .ok start =>
      match ParseUint16 (parts.getD 1 []) with
      | .error err => .error err
      | .ok last =>
        if last < start then
          .error (.Errorf "Invalid range specified for the Port: %s".toList [ports])
        else .ok (start, last)

/-- The function `nat.NewPort` of `go-connections`: the port `port/proto`, after a check
of `port`. -/
def NewPort (proto port : GoString) : Except Error GoString :=
  match (if port.length = 0 then .ok (0, 0) else ParsePortRange port) with
  | .error err => .error err
  | .ok (portStart, portEnd) =>
    if portStart = portEnd then .ok (FormatUint portStart ++ '/' :: proto)
    else .ok (FormatUint portStart ++ '-' :: FormatUint portEnd ++ '/' :: proto)

/-- The multiplier `go-units` gives a unit letter in `RAMInBytes`: powers of 1024. -/
def binaryUnit (c : Char) : Option Nat :=
  if c = 'k' ∨ c = 'K' then some (2 ^ 10)
  else if c = 'm' ∨ c = 'M' then some (2 ^ 20)
  else if c = 'g' ∨ c = 'G' then some (2 ^ 30)
  else if c = 't' ∨ c = 'T' then some (2 ^ 40)
  else if c = 'p' ∨ c = 'P' then some (2 ^ 50)
  else none

/-- The function `units.RAMInBytes` of `go-units` on a size written as a whole number,
an optional blank, an optional unit letter and an optional `b`: the number times the
multiplier of the unit.  `go-units` computes in floating point; the result given here is
the exact one, for a number below `2^53` and a product below `2^63`.  Every other string
(one with a fraction, or out of these bounds, or not a size) is answered with an error. -/
def RAMInBytes (size : GoString) : Except Error Int :=
  let digits := size.takeWhile (fun c => decide ('0' ≤ c ∧ c ≤ '9'))
  let rest := size.dropWhile (fun c => decide ('0' ≤ c ∧ c ≤ '9'))
  let rest := match rest with
    | ' ' :: r => r
    | r => r
  let (mul, rest) := match rest with
    | c :: r =>
      match binaryUnit c with
      | some m => (m, r)
      | none => (1, c :: r)
    | [] => (1, [])
  let rest := match rest with
    | 'b' :: r => r
    | 'B' :: r => r
    | r => r
  match ParseUint digits with
  | .error _ => .error (.External "units.RAMInBytes".toList)
  | .ok n =>
    if rest = [] ∧ n < 2 ^ 53 ∧ n * mul < 2 ^ 63 then .ok ((n * mul : Nat) : Int)
    else .error (.External "units.RAMInBytes".toList)

/-- The collaborators of `stdLibs` together with the functions of `go-units` and
`go-connections` described above, used to evaluate `config` on a specification with a
memory size and expose entries. -/
def goLibs : Libs :=
  { stdLibs with
    RAMInBytes := RAMInBytes
    SplitProtoPort := SplitProtoPort
    ParsePortRange := ParsePortRange
    NewPort := NewPort }

/-! ## Identity resolution (`daemon/mgr/container_utils.go`) -/

/-- The fields of `ContainerMeta` that `container_utils.go` reads and writes. -/
structure ContainerMeta where
  /-- The field `ID`. -/
  ID : GoString := []
  /-- The field `AppArmorProfile`. -/
  AppArmorProfile : GoString := []
  /-- The field `SeccompProfile`. -/
  SeccompProfile : GoString := []
  deriving DecidableEq

/-- A value of the interface `meta.Object`: a `*ContainerMeta`, or an object of another
type (the case in which the assertion `obj.(*ContainerMeta)` fails). -/
inductive Object where
  /-- A `*ContainerMeta`. -/
  | containerMeta (m : ContainerMeta)
  /-- An object of any other type. -/
  | other
  deriving DecidableEq

/-- Modelled from the spec: the persistent store `mgr.Store` (package `pkg/meta`,
whose `Store` is not among the files), as the objects it holds under their keys. -/
structure Store where
  /-- The stored objects, each under its key. -/
  objects : List (GoString × Object) := []
  deriving DecidableEq

/-- Modelled from the spec: the method `GetWithPrefix` of the store (not among the
files), "all objects whose key starts with the token". -/
def Store.GetWithPrefix (s : Store) (pfx : GoString) : Except Error (List Object) :=
  .ok ((s.objects.filter (fun entry => pfx.isPrefixOf entry.1)).map (fun entry => entry.2))

/-- Modelled from the spec: the name index `mgr.NameToID` (a `collect.SafeMap`, not
among the files), "a mapping from Name → ID". -/
structure SafeMap where
  /-- The entries of the map. -/
  entries : GoMap GoString := []
  deriving DecidableEq

/-- Modelled from the spec: the lookup `Get(k).String()` of the name index: the ID
stored under the name, when there is one ("index hit"). -/
def SafeMap.Get (m : SafeMap) (k : GoString) : Option GoString :=
  m.entries.get k

/-- Modelled from the spec: whether `Get(k).Exist()` holds in the name index, that is
whether the name is present in it. -/
def SafeMap.Exist (m : SafeMap) (k : GoString) : Bool :=
  (m.entries.get k).isSome

/-- The part of the type `Container` (not among the files) that lookup returns: the
container with its metadata. -/
structure Container where
  /-- The field `meta`. -/
  meta : ContainerMeta := {}
  deriving DecidableEq

/-- The fields of `ContainerManager` that resolution reads. -/
structure ContainerManager where
  /-- The field `NameToID`. -/
  NameToID : SafeMap := {}
  /-- The field `Store`. -/
  Store : Store := {}
  /-- Modelled from the spec: the field `cache`, the in-memory cache of containers (a
  `collect.SafeMap`, not among the files); `cache.Get(k).Result()` is the lookup of `k`. -/
  cache : GoMap Container := []
  deriving DecidableEq

/-- The method `containerID` of `daemon/mgr/container_utils.go`. -/
def ContainerManager.containerID (mgr : ContainerManager) (nameOrPrefix : GoString) :
    Except Error GoString :=
  match mgr.NameToID.Get nameOrPrefix with
  | some id => .ok id
  | none =>
    match mgr.Store.GetWithPrefix nameOrPrefix with
    | .error err =>
      .error (.Wrapf err "failed to get container info with prefix: %s".toList [nameOrPrefix])
    | .ok objs =>
      if objs.length > 1 then
        .error (.Wrap .ErrTooMany ("container: ".toList ++ nameOrPrefix))
      else if objs.length = 0 then
        .error (.Wrap .ErrNotfound ("container: ".toList ++ nameOrPrefix))
      else
        match objs.head? with
        | some (.containerMeta containerMeta) => .ok containerMeta.ID
        | _ => .error (.Errorf "failed to get container info, invalid meta's type".toList [])

/-- The method `container` of `daemon/mgr/container_utils.go`. -/
def ContainerManager.container (mgr : ContainerManager) (nameOrPrefix : GoString) :
    Except Error Container :=
  match mgr.cache.get nameOrPrefix with
  | some res => .ok res
  | none =>
    match mgr.containerID nameOrPrefix with
    | .error err => .error err
    | .ok id =>
      match mgr.cache.get id with
      | some res => .ok res
      | none => .error (.Wrap .ErrNotfound ("container ".toList ++ nameOrPrefix))

/-- The loop of `generateID`, started at the `n`-th candidate, for at most `fuel`
iterations; `none` when the loop has not ended by then.  The parts outside the files are
parameters: `Get id` is the result of `mgr.Store.Get(id)`, `IsNotfound err` is whether
`err` is a `meta.Error` whose `IsNotfound()` holds, and `Generate n` is the value the
`n`-th call of `randomid.Generate()` returns. -/
def generateIDLoop (Get : GoString → Except Error Object) (IsNotfound : Error → Bool)
    (Generate : Nat → GoString) : Nat → Nat → Option (Except Error GoString)
  | 0, _ => none
  | fuel + 1, n =>
    let id := Generate n
    match Get id with
    | .error err => if IsNotfound err then some (.ok id) else some (.error err)
    | .ok _ => generateIDLoop Get IsNotfound Generate fuel (n + 1)

/-- The method `generateID` of `daemon/mgr/container_utils.go`, run for at most `fuel`
iterations of its loop. -/
def generateID (Get : GoString → Except Error Object) (IsNotfound : Error → Bool)
    (Generate : Nat → GoString) (fuel : Nat) : Option (Except Error GoString) :=
  generateIDLoop Get IsNotfound Generate fuel 0

/-- The loop of `generateName`, from the values `i` and `name` of its variables, for at
most `fuel` iterations; `none` when the loop has not ended by then.  The result is the
final `name` together with the final `i`, which counts the windows probed in the name
index.  The source slices the ID by bytes; the characters of an ID are single bytes. -/
def generateNameLoop (mgr : ContainerManager) (id : GoString) :
    Nat → Nat → GoString → Option (GoString × Nat)
  | 0, _, _ => none
  | fuel + 1, i, name =>
    if i + 6 > id.length then some (name, i)
    else
      let name := (id.drop i).take 6
      let i := i + 1
      if !mgr.NameToID.Exist name then some (name, i)
      else generateNameLoop mgr id fuel i name

/-- The method `generateName` of `daemon/mgr/container_utils.go`: the loop from `i = 0`
and the empty name, with one iteration more than the ID has characters. -/
def ContainerManager.generateName (mgr : ContainerManager) (id : GoString) : GoString :=
  match generateNameLoop mgr id (id.length + 1) 0 [] with
  | some (name, _) => name
  | none => []

/-! ## Security options (`daemon/mgr/container_utils.go`) -/

/-- The function `parseSecurityOpt`: the metadata after the call, which writes through
the pointer `meta`, and the error returned (`none` for nil). -/
def parseSecurityOpt (m : ContainerMeta) (securityOpt : GoString) :
    ContainerMeta × Option Error :=
  let fields := SplitN securityOpt '=' 2
  if fields.length ≠ 2 then
    (m, some (.Errorf "invalid --security-opt %s: must be in format of key=value".toList
      [securityOpt]))
  else
    let key := fields.getD 0 []
    let value := fields.getD 1 []
    if key = "apparmor".toList then ({ m with AppArmorProfile := value }, none)
    else if key = "seccomp".toList then ({ m with SeccompProfile := value }, none)
    else
      (m, some (.Errorf
        "invalid type %s in --security-opt %s: unknown type from apparmor and seccomp".toList
        [key, securityOpt]))

/-- The function `parseSecurityOpts`: the metadata after the call and the error
returned (`none` for nil). -/
def parseSecurityOpts : ContainerMeta → List GoString → ContainerMeta × Option Error
  | m, [] => (m, none)
  | m, securityOpt :: rest =>
    match parseSecurityOpt m securityOpt with
    | (m1, some err) => (m1, some err)
    | (m1, none) => parseSecurityOpts m1 rest

/-! ## Process list (`daemon/mgr/container_utils.go`) -/

/-- The function `fieldsASCII`: the fields of `s` between ASCII white space. -/
def fieldsASCII (s : GoString) : List GoString :=
  FieldsFunc s
    (fun r => decide (r = '\t' ∨ r = '\n' ∨ r = '\x0c' ∨ r = '\r' ∨ r = ' '))

/-- Go `strings.Join(elems, sep)`. -/
def Join : List GoString → GoString → GoString
  | [], _ => []
  | [a], _ => a
  | a :: b :: rest, sep => a ++ sep ++ Join (b :: rest) sep

/-- The type `types.ContainerProcessList`. -/
structure ContainerProcessList where
  /-- The field `Titles`. -/
  Titles : List GoString := []
  /-- The field `Processes`. -/
  Processes : List (List GoString) := []
  deriving DecidableEq

/-- The loop of `parsePSOutput` over the titles: `idx` is the variable `pidIndex`
(`none` for -1) and `i` the position of the next title. -/
def pidIndexLoop : List GoString → Nat → Option Nat → Option Nat
  | [], _, idx => idx
  | name :: rest, i, idx =>
    pidIndexLoop rest (i + 1) (if name = "PID".toList then some i else idx)

/-- A row appended to `procList.Processes` for the line being read: a slice of the
array of `fields` (when `append` found room in that array), or a slice of an array of
its own. -/
inductive ProcessRow where
  /-- The slice `fields[:len(Titles)]` of the array of `fields`. -/
  | shared
  /-- A slice of a new array, with these cells. -/
  | fresh (cells : List GoString)
  deriving DecidableEq

/-- The state of the loop over `pids` for one line: the array of `fields` (a slice whose
capacity is its length, as `strings.FieldsFunc` returns it) and the rows appended so
far for this line. -/
structure LineState where
  /-- The array of `fields`. -/
  fields : List GoString := []
  /-- The rows appended for this line. -/
  rows : List ProcessRow := []
  deriving DecidableEq

/-- The body of `if pid == p` in `parsePSOutput`, for `n` titles: `none` when the slice
expressions `fields[:n-1]` and `fields[n-1:]` are out of range (a run-time panic);
otherwise the joined field is appended to `fields[:n-1]`, in the array of `fields` when
it has room (so that `fields[n-1]` is overwritten), in a new array when it has not. -/
def appendProcess (n : Nat) (st : LineState) : Option LineState :=
  if n = 0 ∨ n - 1 > st.fields.length then none
  else
    let joined := Join (st.fields.drop (n - 1)) " ".toList
    if n - 1 < st.fields.length then
      some { fields := st.fields.set (n - 1) joined, rows := st.rows ++ [.shared] }
    else
      some { st with rows := st.rows ++ [.fresh (st.fields.take (n - 1) ++ [joined])] }

/-- The loop over `pids` in `parsePSOutput` for a line whose PID field is `p`. -/
def matchPids (n : Nat) (p : Int) : List Int → LineState → Option LineState
  | [], st => some st
  | pid :: pids, st =>
    if pid = p then
      match appendProcess n st with
      | none => none
      | some st1 => matchPids n p pids st1
    else matchPids n p pids st

/-- The rows of a line as `procList.Processes` holds them once the line is done: a
shared row shows the final content of the array of `fields`. -/
def rowsOf (n : Nat) (st : LineState) : List (List GoString) :=
  st.rows.map (fun row =>
    match row with
    | .shared => st.fields.take n
    | .fresh cells => cells)

/-- The loop of `parsePSOutput` over the lines after the header, for `n` titles, the
PID title at `pidIndex`, and `procs` the rows collected so far: `none` is a run-time
panic (an index or a slice out of range), `some` is the return of the function. -/
def psLines (n pidIndex : Nat) (pids : List Int) :
    List GoString → List (List GoString) → Option (Except Error (List (List GoString)))
  | [], procs => some (.ok procs)
  | line :: rest, procs =>
    if line.length = 0 then psLines n pidIndex pids rest procs
    else
      let fields := fieldsASCII line
      if pidIndex ≥ fields.length then none
      else
        match Atoi (fields.getD pidIndex []) with
        | .error err =>
          some (.error (.ErrorfErr "Unexpected pid '%s': %s".toList [fields.getD pidIndex []] err))
        | .ok p =>
          match matchPids n p pids { fields := fields } with
          | none => none
          | some st => psLines n pidIndex pids rest (procs ++ rowsOf n st)

/-- The function `parsePSOutput`: `none` is a run-time panic, `some` is the return of
the function. -/
def parsePSOutput (output : GoString) (pids : List Int) :
    Option (Except Error ContainerProcessList) :=
  let lines := Split output '\n'
  let Titles := fieldsASCII (lines.getD 0 [])
  match pidIndexLoop Titles 0 none with
  | none => some (.error (.Errorf "Couldn't find PID field in ps output".toList []))
  | some pidIndex =>
    match psLines Titles.length pidIndex pids (lines.drop 1) [] with
    | none => none
    | some (.error err) => some (.error err)
    | some (.ok procs) => some (.ok { Titles := Titles, Processes := procs })

/-! ## Volume removal (`daemon/mgr/volume.go`) -/

/-- Go `strings.Contains(s, substr)`. -/
def Contains : GoString → GoString → Bool
  | [], substr => substr.isEmpty
  | c :: cs, substr => substr.isPrefixOf (c :: cs) || Contains cs substr

/-- The part of `volume.Core` (not among the files) that `Remove` uses, as parameters:
the result of `core.RemoveVolume` for a volume name (`none` for nil), and the text
`err.Error()` of an error. -/
structure VolumeCore where
  /-- The result of `RemoveVolume(types.VolumeID{Name: name})`. -/
  RemoveVolume : GoString → Option Error
  /-- The text `err.Error()`. -/
  ErrorText : Error → GoString

/-- The type `VolumeManager`. -/
structure VolumeManager where
  /-- The field `core`. -/
  core : VolumeCore

/-- The method `Remove` of `VolumeManager`. -/
def VolumeManager.Remove (vm : VolumeManager) (name : GoString) : Option Error :=
  match vm.core.RemoveVolume name with
  | some err =>
    if Contains (vm.core.ErrorText err) "not found".toList then
      some (.Wrap .ErrNotfound (vm.core.ErrorText err))
    else none
  | none => none

/-! ## Vocabulary of the map properties -/

/-- The entry `entry` of a label or sysctl list carries the key `k` and the value `v`:
`k` is the text before its first `=` and `v` the text after it. -/
def Carries (entry k v : GoString) : Prop :=
  Cut '=' entry = some (k, v)

/-- The entry `quota` of a disk-quota list carries the key `k` and the value `v`: a bare
value carries the root path `/`, and `key=value` carries `key`. -/
def QuotaCarries (quota k v : GoString) : Prop :=
  ('=' ∉ quota ∧ k = "/".toList ∧ v = quota) ∨ Cut '=' quota = some (k, v)

/-- The map `m` holds the entries of the list with later duplicates winning: its keys
are exactly the keys some entry carries, no key occurs twice, and a key is mapped to
the value of the last entry of the list that carries it. -/
def LastWins (carries : GoString → GoString → GoString → Prop) (entries : List GoString)
    (m : GoMap GoString) : Prop :=
  (∀ k, k ∈ m.map Prod.fst ↔ ∃ e ∈ entries, ∃ v, carries e k v)
    ∧ (m.map Prod.fst).Nodup
    ∧ (∀ k v, m.get k = some v ↔
        ∃ pre e post, entries = pre ++ e :: post ∧ carries e k v
          ∧ ∀ e2 ∈ post, ∀ v2, ¬ carries e2 k v2)

/-- The row of a line of ps output under `n` titles: its first `n - 1` fields, then the
remaining fields joined by single blanks. -/
def psRow (n : Nat) (line : GoString) : List GoString :=
  (fieldsASCII line).take (n - 1) ++ [Join ((fieldsASCII line).drop (n - 1)) " ".toList]

/-- Whether a line of ps output is non-empty and its field at `pidIndex` is the decimal
numeral of one of the listed pids. -/
def psSelected (pidIndex : Nat) (pids : List Int) (line : GoString) : Bool :=
  !line.isEmpty &&
    match Atoi ((fieldsASCII line).getD pidIndex []) with
    | .ok p => decide (p ∈ pids)
    | .error _ => false

/-! ## Splitting -/

theorem Cut_of_not_mem (sep : Char) (s : GoString) (h : sep ∉ s) : Cut sep s = none := by
  induction s with
  | nil => rfl
  | cons c cs ih =>
    have hc : ¬ c = sep := fun e => h (by simp [e])
    have hcs : sep ∉ cs := fun e => h (by simp [e])
    simp [Cut, hc, ih hcs]

theorem Cut_append (sep : Char) (a b : GoString) (h : sep ∉ a) :
    Cut sep (a ++ sep :: b) = some (a, b) := by
  induction a with
  | nil => simp [Cut]
  | cons c cs ih =>
    have hc : ¬ c = sep := fun e => h (by simp [e])
    have hcs : sep ∉ cs := fun e => h (by simp [e])
    simp [Cut, hc, ih hcs]

theorem Split_of_not_mem (sep : Char) (s : GoString) (h : sep ∉ s) : Split s sep = [s] := by
  simp [Split, Count, List.count_eq_zero_of_not_mem h, SplitN]

theorem Split_append (sep : Char) (a b : GoString) (h : sep ∉ a) :
    Split (a ++ sep :: b) sep = a :: Split b sep := by
  have hcount : Count (a ++ sep :: b) sep = Count b sep + 1 := by
    simp [Count, List.count_eq_zero_of_not_mem h]
  simp [Split, hcount, SplitN, Cut_append sep a b h]

/-! ## Decimal numerals and `Atoi` -/

theorem digitChar_isDigit (d : Nat) (h : d < 10) :
    ¬ (Nat.digitChar d < '0' ∨ '9' < Nat.digitChar d)
      ∧ (Nat.digitChar d).toNat - '0'.toNat = d ∧ Nat.digitChar d ≠ ':'
      ∧ Nat.digitChar d ≠ '+' ∧ Nat.digitChar d ≠ '-' := by
  interval_cases d <;> decide

theorem toDigitsCore_spec (fuel : Nat) : ∀ (n : Nat) (ds : List Char), n < fuel →
    (∀ c ∈ ds, ¬ (c < '0' ∨ '9' < c) ∧ c ≠ ':' ∧ c ≠ '+' ∧ c ≠ '-') →
    (∀ c ∈ Nat.toDigitsCore 10 fuel n ds, ¬ (c < '0' ∨ '9' < c) ∧ c ≠ ':' ∧ c ≠ '+' ∧ c ≠ '-')
      ∧ Nat.toDigitsCore 10 fuel n ds ≠ []
      ∧ (Nat.toDigitsCore 10 fuel n ds).foldl (fun a c => a * 10 + (c.toNat - '0'.toNat)) 0
          = ds.foldl (fun a c => a * 10 + (c.toNat - '0'.toNat)) n := by
  induction fuel with
  | zero => intro n ds h; omega
  | succ fuel ih =>
    intro n ds hn hds
    have hd := digitChar_isDigit (n % 10) (Nat.mod_lt _ (by decide))
    have hds1 : ∀ c ∈ Nat.digitChar (n % 10) :: ds,
        ¬ (c < '0' ∨ '9' < c) ∧ c ≠ ':' ∧ c ≠ '+' ∧ c ≠ '-' := by
      intro c hc
      rcases List.mem_cons.mp hc with rfl | hc
      · exact ⟨hd.1, hd.2.2⟩
      · exact hds c hc
    unfold Nat.toDigitsCore
    by_cases h0 : n / 10 = 0
    · simp only [h0, if_true]
      refine ⟨hds1, by simp, ?_⟩
      have : n % 10 = n := Nat.mod_eq_of_lt (by omega)
      rw [List.foldl_cons, hd.2.1, this]
      simp
    · simp only [h0, if_false]
      have hlt : n / 10 < fuel := by omega
      obtain ⟨h1, h2, h3⟩ := ih (n / 10) (Nat.digitChar (n % 10) :: ds) hlt hds1
      refine ⟨h1, h2, ?_⟩
      rw [h3, List.foldl_cons, hd.2.1]
      congr 1
      omega

theorem toDigits_spec (n : Nat) :
    (∀ c ∈ Nat.toDigits 10 n, ¬ (c < '0' ∨ '9' < c) ∧ c ≠ ':' ∧ c ≠ '+' ∧ c ≠ '-')
      ∧ Nat.toDigits 10 n ≠ []
      ∧ (Nat.toDigits 10 n).foldl (fun a c => a * 10 + (c.toNat - '0'.toNat)) 0 = n := by
  have h := toDigitsCore_spec (n + 1) n [] (by omega) (by simp)
  simpa [Nat.toDigits] using h

theorem foldl_digits_mono (ds : List Char) : ∀ n : Nat,
    n ≤ ds.foldl (fun a c => a * 10 + (c.toNat - '0'.toNat)) n := by
  induction ds with
  | nil => intro n; simp
  | cons c cs ih =>
    intro n
    have := ih (n * 10 + (c.toNat - '0'.toNat))
    simp only [List.foldl_cons]
    omega

theorem parseUintLoop_digits (ds : List Char) : ∀ n : Nat,
    (∀ c ∈ ds, ¬ (c < '0' ∨ '9' < c)) →
    ds.foldl (fun a c => a * 10 + (c.toNat - '0'.toNat)) n ≤ maxUint64 →
    parseUintLoop ds n = .ok (ds.foldl (fun a c => a * 10 + (c.toNat - '0'.toNat)) n) := by
  induction ds with
  | nil => intro n _ _; rfl
  | cons c cs ih =>
    intro n hds hle
    have hc := hds c (by simp)
    have hcs : ∀ c ∈ cs, ¬ (c < '0' ∨ '9' < c) := fun c h => hds c (by simp [h])
    simp only [List.foldl_cons] at hle ⊢
    have hmono := foldl_digits_mono cs (n * 10 + (c.toNat - '0'.toNat))
    have h1 : n * 10 + (c.toNat - '0'.toNat) ≤ maxUint64 := le_trans hmono hle
    have h2 : ¬ n ≥ maxUint64 / 10 + 1 := by
      unfold maxUint64 at h1 ⊢
      omega
    have h3 : ¬ n * 10 + (c.toNat - '0'.toNat) > maxUint64 := by omega
    simp only [parseUintLoop, hc, h2, h3, if_false]
    exact ih _ hcs hle

theorem Atoi_toDigits (n : Nat) (h : n < 2 ^ 63) : Atoi (Nat.toDigits 10 n) = .ok (n : Int) := by
  obtain ⟨hdig, hne, hval⟩ := toDigits_spec n
  have hloop := parseUintLoop_digits (Nat.toDigits 10 n) 0 (fun c hc => (hdig c hc).1)
    (by rw [hval]; unfold maxUint64; omega)
  rw [hval] at hloop
  cases hs : Nat.toDigits 10 n with
  | nil => exact absurd hs hne
  | cons c cs =>
    have hc := hdig c (by simp [hs])
    rw [hs] at hloop
    have h63 : ¬ 9223372036854775808 ≤ n := by omega
    simp [Atoi, ParseInt, ParseUint, hc.2.2.1, hc.2.2.2, hloop, h63]

/-! ## Restart policy -/

/-- C3, as the code behaves: for `always`, `unless-stopped` and `no`, a restart-policy
string `name:count` is accepted whatever the count is; the result carries that name and
`MaximumRetryCount` 0. -/
theorem parseRestartPolicy_count_ignored (name count : GoString)
    (h : name = "always".toList ∨ name = "unless-stopped".toList ∨ name = "no".toList) :
    parseRestartPolicy (name ++ ':' :: count)
      = .ok { Name := name, MaximumRetryCount := 0 } := by
  have hsep : ':' ∉ name := by
    rcases h with h | h | h <;> subst h <;> decide
  have hne : ¬ name ++ ':' :: count = [] := by simp
  simp only [parseRestartPolicy, hne, if_false, Split_append ':' name count hsep,
    List.getD_cons_zero]
  rw [if_pos h]

/-- C3, counterexample: `always:5` gives a count to a policy other than `on-failure`
and is accepted. -/
theorem parseRestartPolicy_always_count_accepted :
    parseRestartPolicy "always:5".toList
      = .ok { Name := "always".toList, MaximumRetryCount := 0 } := by
  decide

theorem parseRestartPolicy_count_ignored_witness :
    parseRestartPolicy ("unless-stopped".toList ++ ':' :: "3".toList)
      = .ok { Name := "unless-stopped".toList, MaximumRetryCount := 0 } :=
  parseRestartPolicy_count_ignored "unless-stopped".toList "3".toList (by decide)

/-- C4, within the range of Go's `int`: for every `N < 2^63`, the string `on-failure:`
followed by the decimal numeral of `N` parses to the policy `on-failure` with
`MaximumRetryCount = N`. -/
theorem parseRestartPolicy_on_failure_count (N : Nat) (h : N < 2 ^ 63) :
    parseRestartPolicy ("on-failure:".toList ++ Nat.toDigits 10 N)
      = .ok { Name := "on-failure".toList, MaximumRetryCount := (N : Int) } := by
  obtain ⟨hdig, -, -⟩ := toDigits_spec N
  have hsep : ':' ∉ "on-failure".toList := by decide
  have hsep2 : ':' ∉ Nat.toDigits 10 N := fun hm => (hdig ':' hm).2.1 rfl
  have hstr : "on-failure:".toList ++ Nat.toDigits 10 N
      = "on-failure".toList ++ ':' :: Nat.toDigits 10 N := by
    have : "on-failure:".toList = "on-failure".toList ++ [':'] := by decide
    rw [this, List.append_assoc]; rfl
  have hne : ¬ "on-failure".toList ++ ':' :: Nat.toDigits 10 N = [] := by simp
  have hname : ¬ ("on-failure".toList = "always".toList
      ∨ "on-failure".toList = "unless-stopped".toList ∨ "on-failure".toList = "no".toList) := by
    decide
  rw [hstr]
  simp only [parseRestartPolicy, hne, if_false, Split_append ':' _ _ hsep,
    Split_of_not_mem ':' _ hsep2, List.getD_cons_zero, List.getD_cons_succ,
    if_neg hname, if_true, List.length_cons, List.length_nil, Atoi_toDigits N h]
  simp

/-- C4, counterexample: the numeral of `2^63` is a non-negative integer that does not
fit Go's `int`; `strconv.Atoi` reports a range error and the policy is rejected. -/
theorem parseRestartPolicy_on_failure_count_out_of_range :
    parseRestartPolicy ("on-failure:".toList ++ Nat.toDigits 10 9223372036854775808)
      = .error (.ErrorfErr "invalid restart policy: %v".toList []
          (.NumError "Atoi".toList "9223372036854775808".toList .ErrRange)) := by
  decide

theorem parseRestartPolicy_on_failure_count_witness :
    parseRestartPolicy ("on-failure:".toList ++ Nat.toDigits 10 3)
      = .ok { Name := "on-failure".toList, MaximumRetryCount := 3 } :=
  parseRestartPolicy_on_failure_count 3 (by decide)

/-- C5: when `parseRestartPolicy` succeeds, the name is one of `no`, `always`,
`unless-stopped`, `on-failure`, and `MaximumRetryCount` is 0 unless the name is
`on-failure`; the empty string gives the name `no` and count 0. -/
theorem parseRestartPolicy_ok_name (s : GoString) (p : RestartPolicy)
    (h : parseRestartPolicy s = .ok p) :
    (p.Name = "no".toList ∨ p.Name = "always".toList ∨ p.Name = "unless-stopped".toList
        ∨ p.Name = "on-failure".toList)
      ∧ (p.Name ≠ "on-failure".toList → p.MaximumRetryCount = 0)
      ∧ parseRestartPolicy [] = .ok { Name := "no".toList, MaximumRetryCount := 0 } := by
  have key : (p.Name = "no".toList ∨ p.Name = "always".toList
      ∨ p.Name = "unless-stopped".toList ∨ p.Name = "on-failure".toList)
      ∧ (p.Name ≠ "on-failure".toList → p.MaximumRetryCount = 0) := by
    simp only [parseRestartPolicy] at h
    split_ifs at h with h1 h2 h3 h4 h5
    · cases h
      exact ⟨Or.inl rfl, fun _ => rfl⟩
    · cases h
      exact ⟨by dsimp only; tauto, fun _ => rfl⟩
    · split at h
      · cases h
      · cases h
        exact ⟨Or.inr (Or.inr (Or.inr h3)), fun hne => absurd h3 hne⟩
    · cases h
      exact ⟨Or.inr (Or.inr (Or.inr h3)), fun _ => rfl⟩
  exact ⟨key.1, key.2, rfl⟩

theorem parseRestartPolicy_ok_name_witness :
    (("always".toList = "no".toList ∨ "always".toList = "always".toList
        ∨ "always".toList = "unless-stopped".toList ∨ "always".toList = "on-failure".toList)
      ∧ ("always".toList ≠ "on-failure".toList → (0 : Int) = 0)
      ∧ parseRestartPolicy [] = .ok { Name := "no".toList, MaximumRetryCount := 0 }) :=
  parseRestartPolicy_ok_name "always".toList { Name := "always".toList } (by decide)

/-! ## Identity resolution -/

theorem GetWithPrefix_length (s : Store) (pfx : GoString) :
    ∃ objs, s.GetWithPrefix pfx = .ok objs
      ∧ objs = (s.objects.filter (fun entry => pfx.isPrefixOf entry.1)).map (fun entry => entry.2)
      ∧ objs.length = s.objects.countP (fun entry => pfx.isPrefixOf entry.1) := by
  refine ⟨_, rfl, rfl, ?_⟩
  rw [List.length_map, List.countP_eq_length_filter]

/-- C1: for a token that is not a key of the name index, `containerID` returns the ID of
the matched container when exactly one stored key starts with the token, the error
`ErrTooMany` when two or more stored keys start with it, and the error `ErrNotfound`
when none does. -/
theorem containerID_by_prefix (mgr : ContainerManager) (token : GoString)
    (hname : mgr.NameToID.Get token = none) :
    (∀ key m, (key, Object.containerMeta m) ∈ mgr.Store.objects → token <+: key →
        mgr.Store.objects.countP (fun entry => token.isPrefixOf entry.1) = 1 →
        mgr.containerID token = .ok m.ID)
      ∧ (2 ≤ mgr.Store.objects.countP (fun entry => token.isPrefixOf entry.1) →
        mgr.containerID token = .error (.Wrap .ErrTooMany ("container: ".toList ++ token)))
      ∧ (mgr.Store.objects.countP (fun entry => token.isPrefixOf entry.1) = 0 →
        mgr.containerID token = .error (.Wrap .ErrNotfound ("container: ".toList ++ token))) := by
  obtain ⟨objs, hget, hobjs, hlen⟩ := GetWithPrefix_length mgr.Store token
  refine ⟨?_, ?_, ?_⟩
  · intro key m hmem hpre hcount
    have hin : (key, Object.containerMeta m)
        ∈ mgr.Store.objects.filter (fun entry => token.isPrefixOf entry.1) := by
      rw [List.mem_filter]
      exact ⟨hmem, List.isPrefixOf_iff_prefix.mpr hpre⟩
    have hone : (mgr.Store.objects.filter (fun entry => token.isPrefixOf entry.1)).length = 1 := by
      rw [← List.countP_eq_length_filter]; exact hcount
    obtain ⟨x, hx⟩ := List.length_eq_one.mp hone
    rw [hx] at hin hobjs
    have hxe : x = (key, Object.containerMeta m) := (List.mem_singleton.mp hin).symm
    subst hxe
    simp [ContainerManager.containerID, hname, hget, hobjs]
  · intro hcount
    have h1 : objs.length > 1 := by omega
    simp [ContainerManager.containerID, hname, hget, h1]
  · intro hcount
    have h0 : objs.length = 0 := by omega
    simp [ContainerManager.containerID, hname, hget, h0]

theorem containerID_by_prefix_witness :
    (∀ key m, (key, Object.containerMeta m)
          ∈ [("abc123".toList, Object.containerMeta { ID := "abc123".toList }),
             ("abd456".toList, Object.containerMeta { ID := "abd456".toList })] →
        "abc".toList <+: key →
        [("abc123".toList, Object.containerMeta { ID := "abc123".toList }),
         ("abd456".toList, Object.containerMeta { ID := "abd456".toList })].countP
          (fun entry => "abc".toList.isPrefixOf entry.1) = 1 →
        ContainerManager.containerID
          { NameToID := { entries := [("web".toList, "abd456".toList)] },
            Store := { objects :=
              [("abc123".toList, Object.containerMeta { ID := "abc123".toList }),
               ("abd456".toList, Object.containerMeta { ID := "abd456".toList })] } }
          "abc".toList = .ok m.ID)
      ∧ ContainerManager.containerID
          { NameToID := { entries := [("web".toList, "abd456".toList)] },
            Store := { objects :=
              [("abc123".toList, Object.containerMeta { ID := "abc123".toList }),
               ("abd456".toList, Object.containerMeta { ID := "abd456".toList })] } }
          "abc".toList = .ok "abc123".toList :=
  have h := containerID_by_prefix
    { NameToID := { entries := [("web".toList, "abd456".toList)] },
      Store := { objects :=
        [("abc123".toList, Object.containerMeta { ID := "abc123".toList }),
         ("abd456".toList, Object.containerMeta { ID := "abd456".toList })] } }
    "abc".toList (by decide)
  ⟨h.1, h.1 "abc123".toList { ID := "abc123".toList } (by decide) (by decide) (by decide)⟩

/-- C2: for a token that is a key of the name index, `containerID` returns the ID the
index maps it to, whatever the store holds: the result is the same for every store put
in place of the manager's. -/
theorem containerID_by_name (mgr : ContainerManager) (token id : GoString)
    (hname : mgr.NameToID.Get token = some id) (store : Store) :
    mgr.containerID token = .ok id
      ∧ ContainerManager.containerID { mgr with Store := store } token = .ok id := by
  constructor <;> simp [ContainerManager.containerID, hname]

theorem containerID_by_name_witness :
    ContainerManager.containerID
        { NameToID := { entries := [("abc".toList, "ffff00".toList)] },
          Store := { objects :=
            [("abc".toList, Object.containerMeta { ID := "abc".toList }),
             ("abc123".toList, Object.containerMeta { ID := "abc123".toList })] } }
        "abc".toList = .ok "ffff00".toList
      ∧ ContainerManager.containerID
        { NameToID := { entries := [("abc".toList, "ffff00".toList)] }, Store := { } }
        "abc".toList = .ok "ffff00".toList :=
  containerID_by_name
    { NameToID := { entries := [("abc".toList, "ffff00".toList)] },
      Store := { objects :=
        [("abc".toList, Object.containerMeta { ID := "abc".toList }),
         ("abc123".toList, Object.containerMeta { ID := "abc123".toList })] } }
    "abc".toList "ffff00".toList (by decide) { }

/-! ## The method `config` -/

theorem config_ok (L : Libs) (c : container) (cfg : ContainerCreateConfig)
    (h : c.config L = .ok cfg) :
    validateMemorySwappiness c.memorySwappiness = none
      ∧ cfg.HostConfig.Resources.MemorySwappiness = c.memorySwappiness
      ∧ configNetworks L c.networks
          = .ok { networkMode := cfg.HostConfig.NetworkMode,
                  EndpointsConfig := cfg.NetworkingConfig.EndpointsConfig } := by
  simp only [container.config, bind, Except.bind, pure, Except.pure, throw, throwThe,
    MonadExceptOf.throw] at h
  split at h
  · cases h
  split at h
  · cases h
  rename_i hval
  have hnone : validateMemorySwappiness c.memorySwappiness = none := by
    cases hv : validateMemorySwappiness c.memorySwappiness with
    | none => rfl
    | some err => exact absurd hv (hval err)
  iterate 7 (split at h; · cases h)
  split at h
  · cases h
  split at h
  · cases h
  rename_i net hnet
  split at h
  · cases h
  split at h
  · cases h
  cases h
  exact ⟨hnone, rfl, hnet⟩

/-- C6: `validateMemorySwappiness v` is an error exactly when `v` is outside
`{-1} ∪ [0,100]`; and when `config` succeeds, the supplied swappiness is within that set
and the `MemorySwappiness` of the result is the supplied value. -/
theorem validateMemorySwappiness_iff (L : Libs) (c : container) (cfg : ContainerCreateConfig)
    (v : Int) (h : c.config L = .ok cfg) :
    (validateMemorySwappiness v ≠ none ↔ ¬ (v = -1 ∨ (0 ≤ v ∧ v ≤ 100)))
      ∧ cfg.HostConfig.Resources.MemorySwappiness = c.memorySwappiness
      ∧ (c.memorySwappiness = -1 ∨ (0 ≤ c.memorySwappiness ∧ c.memorySwappiness ≤ 100)) := by
  have hiff : ∀ w : Int,
      validateMemorySwappiness w ≠ none ↔ ¬ (w = -1 ∨ (0 ≤ w ∧ w ≤ 100)) := by
    intro w
    unfold validateMemorySwappiness
    split_ifs with hw
    · simp only [ne_eq, reduceCtorEq, not_false_eq_true, true_iff]
      omega
    · simp only [ne_eq, not_true_eq_false, false_iff, not_not]
      omega
  obtain ⟨hnone, hkeep, -⟩ := config_ok L c cfg h
  refine ⟨hiff v, hkeep, ?_⟩
  by_contra hout
  exact ((hiff c.memorySwappiness).mpr hout) hnone

theorem validateMemorySwappiness_iff_witness :
    (validateMemorySwappiness 101 ≠ none ↔ ¬ ((101 : Int) = -1 ∨ ((0 : Int) ≤ 101 ∧ (101 : Int) ≤ 100)))
      ∧ (60 : Int) = 60
      ∧ ((60 : Int) = -1 ∨ ((0 : Int) ≤ 60 ∧ (60 : Int) ≤ 100)) :=
  validateMemorySwappiness_iff stdLibs { memorySwappiness := 60 }
    { HostConfig := { Resources := { MemorySwappiness := 60 },
                      RestartPolicy := { Name := "no".toList },
                      NetworkMode := "bridge".toList } }
    101 (by decide)

/-! ## Network mode -/

theorem configNetwork_mode (L : Libs) (st st1 : NetworkState) (d : GoString)
    (h : configNetwork L st d = .ok st1) :
    ∃ name par mode, parseNetwork L d = .ok (name, par, mode)
      ∧ st1.networkMode =
          (if name = "container".toList then name ++ ":".toList ++ par
           else if st.networkMode = [] ∨ mode = "mode".toList then name
           else st.networkMode) := by
  unfold configNetwork at h
  split at h
  · cases h
  · rename_i name par mode hparse
    refine ⟨name, par, mode, hparse, ?_⟩
    dsimp only at h
    by_cases h1 : name = "container".toList
    · rw [if_pos h1] at h ⊢
      cases h
      rfl
    · rw [if_neg h1] at h ⊢
      by_cases h2 : L.ParseIP par = true
      · rw [if_pos h2] at h
        cases h
        rfl
      · rw [if_neg h2] at h
        cases h
        rfl

theorem foldlM_configNetwork_cons (L : Libs) (st st2 : NetworkState) (d : GoString)
    (rest : List GoString) (h : List.foldlM (configNetwork L) st (d :: rest) = .ok st2) :
    ∃ st1, configNetwork L st d = .ok st1
      ∧ List.foldlM (configNetwork L) st1 rest = .ok st2 := by
  rw [List.foldlM_cons] at h
  cases h1 : configNetwork L st d with
  | error e => rw [h1] at h; cases h
  | ok st1 => rw [h1] at h; exact ⟨st1, rfl, h⟩

theorem foldlM_configNetwork_append (L : Libs) (pre : List GoString) :
    ∀ (st st2 : NetworkState) (post : List GoString),
      List.foldlM (configNetwork L) st (pre ++ post) = .ok st2 →
      ∃ st1, List.foldlM (configNetwork L) st pre = .ok st1
        ∧ List.foldlM (configNetwork L) st1 post = .ok st2 := by
  induction pre with
  | nil => intro st st2 post h; exact ⟨st, rfl, h⟩
  | cons d pre ih =>
    intro st st2 post h
    obtain ⟨st1, h1, h2⟩ := foldlM_configNetwork_cons L st st2 d (pre ++ post) h
    obtain ⟨st3, h3, h4⟩ := ih st1 st2 post h2
    refine ⟨st3, ?_, h4⟩
    rw [List.foldlM_cons, h1]
    exact h3

theorem foldlM_configNetwork_mode (L : Libs) (nets : List GoString) :
    ∀ (st st2 : NetworkState), List.foldlM (configNetwork L) st nets = .ok st2 →
      st2.networkMode = st.networkMode
        ∨ ∃ d ∈ nets, ∃ name par mode, parseNetwork L d = .ok (name, par, mode)
            ∧ (st2.networkMode = name
                ∨ (name = "container".toList
                    ∧ st2.networkMode = "container:".toList ++ par)) := by
  induction nets with
  | nil => intro st st2 h; cases h; exact Or.inl rfl
  | cons d rest ih =>
    intro st st2 h
    obtain ⟨st1, h1, h2⟩ := foldlM_configNetwork_cons L st st2 d rest h
    obtain ⟨name, par, mode, hparse, hmode⟩ := configNetwork_mode L st st1 d h1
    rcases ih st1 st2 h2 with hsame | ⟨d2, hd2, n2, p2, m2, hp2, hres⟩
    · rw [hsame, hmode]
      split_ifs with hc hm
      · refine Or.inr ⟨d, by simp, name, par, mode, hparse, Or.inr ⟨hc, ?_⟩⟩
        rw [hc]; rfl
      · exact Or.inr ⟨d, by simp, name, par, mode, hparse, Or.inl rfl⟩
      · exact Or.inl rfl
    · exact Or.inr ⟨d2, by simp [hd2], n2, p2, m2, hp2, hres⟩

theorem foldlM_configNetwork_stable (L : Libs) (nets : List GoString) :
    ∀ (st st2 : NetworkState), List.foldlM (configNetwork L) st nets = .ok st2 →
      st.networkMode ≠ [] →
      (∀ d ∈ nets, ∀ name par mode, parseNetwork L d = .ok (name, par, mode) →
        name ≠ "container".toList ∧ mode ≠ "mode".toList) →
      st2.networkMode = st.networkMode := by
  induction nets with
  | nil => intro st st2 h _ _; cases h; rfl
  | cons d rest ih =>
    intro st st2 h hne hall
    obtain ⟨st1, h1, h2⟩ := foldlM_configNetwork_cons L st st2 d rest h
    obtain ⟨name, par, mode, hparse, hmode⟩ := configNetwork_mode L st st1 d h1
    obtain ⟨hc, hm⟩ := hall d (by simp) name par mode hparse
    have hst1 : st1.networkMode = st.networkMode := by
      rw [hmode, if_neg hc, if_neg (by tauto)]
    have := ih st1 st2 h2 (by rw [hst1]; exact hne)
      (fun d2 hd2 => hall d2 (by simp [hd2]))
    rw [this, hst1]

theorem configNetworks_first (L : Libs) (d : GoString) (rest : List GoString)
    (st2 : NetworkState) (h : configNetworks L (d :: rest) = .ok st2) :
    ∃ st1 name par mode, parseNetwork L d = .ok (name, par, mode)
      ∧ st1.networkMode
          = (if name = "container".toList then name ++ ":".toList ++ par else name)
      ∧ List.foldlM (configNetwork L) st1 rest = .ok st2 := by
  unfold configNetworks at h
  obtain ⟨st1, h1, h2⟩ := foldlM_configNetwork_cons L _ st2 d rest h
  obtain ⟨name, par, mode, hparse, hmode⟩ := configNetwork_mode L _ st1 d h1
  refine ⟨st1, name, par, mode, hparse, ?_, h2⟩
  rw [hmode]
  have hinit : (if (d :: rest).length = 0 then "bridge".toList else ([] : GoString)) = [] := by
    simp
  simp only [hinit, true_or, if_true]

/-- C7, as the code behaves: when `config` succeeds, `NetworkMode` is `bridge` for an
empty network list; for a non-empty list it is the name of one of the descriptors, or
`container:<target>` for a `container` descriptor of the list; and it is non-empty
whenever every descriptor of the list has a non-empty name. -/
theorem config_networkMode_set (L : Libs) (c : container) (cfg : ContainerCreateConfig)
    (h : c.config L = .ok cfg) :
    (c.networks = [] → cfg.HostConfig.NetworkMode = "bridge".toList)
      ∧ (c.networks ≠ [] →
          ∃ d ∈ c.networks, ∃ name par mode, parseNetwork L d = .ok (name, par, mode)
            ∧ (cfg.HostConfig.NetworkMode = name
                ∨ (name = "container".toList
                    ∧ cfg.HostConfig.NetworkMode = "container:".toList ++ par)))
      ∧ ((∀ d ∈ c.networks, ∀ name par mode, parseNetwork L d = .ok (name, par, mode) →
            name ≠ []) →
          cfg.HostConfig.NetworkMode ≠ []) := by
  obtain ⟨-, -, hnet⟩ := config_ok L c cfg h
  have hempty : c.networks = [] → cfg.HostConfig.NetworkMode = "bridge".toList := by
    intro hnil
    rw [hnil] at hnet
    have : (Except.ok { networkMode := "bridge".toList } : Except Error NetworkState)
        = .ok { networkMode := cfg.HostConfig.NetworkMode,
                EndpointsConfig := cfg.NetworkingConfig.EndpointsConfig } := hnet
    injection this with this
    injection this with hmode _
    exact hmode.symm
  have hsome : c.networks ≠ [] →
      ∃ d ∈ c.networks, ∃ name par mode, parseNetwork L d = .ok (name, par, mode)
        ∧ (cfg.HostConfig.NetworkMode = name
            ∨ (name = "container".toList
                ∧ cfg.HostConfig.NetworkMode = "container:".toList ++ par)) := by
    intro hne
    cases hnets : c.networks with
    | nil => exact absurd hnets hne
    | cons d rest =>
      rw [hnets] at hnet
      obtain ⟨st1, name, par, mode, hparse, hst1, hrest⟩ := configNetworks_first L d rest _ hnet
      rcases foldlM_configNetwork_mode L rest st1 _ hrest with hsame | ⟨d2, hd2, n2, p2, m2, hp2, hres⟩
      · refine ⟨d, by simp, name, par, mode, hparse, ?_⟩
        have hsame2 : cfg.HostConfig.NetworkMode = st1.networkMode := hsame
        rw [hsame2, hst1]
        by_cases hc : name = "container".toList
        · rw [if_pos hc]
          refine Or.inr ⟨hc, ?_⟩
          rw [hc]; rfl
        · rw [if_neg hc]
          exact Or.inl rfl
      · exact ⟨d2, by simp [hd2], n2, p2, m2, hp2, hres⟩
  refine ⟨hempty, hsome, ?_⟩
  intro hall
  by_cases hnil : c.networks = []
  · rw [hempty hnil]; decide
  · obtain ⟨d, hd, name, par, mode, hparse, hres⟩ := hsome hnil
    rcases hres with hres | ⟨-, hres⟩
    · rw [hres]; exact hall d hd name par mode hparse
    · rw [hres]; simp

/-- C7, counterexample: the descriptor `:x` has an empty name; `config` succeeds and
leaves `NetworkMode` empty. -/
theorem config_networkMode_empty :
    ∃ cfg, container.config stdLibs { networks := [":x".toList] } = .ok cfg
      ∧ cfg.HostConfig.NetworkMode = [] :=
  ⟨{ HostConfig := { RestartPolicy := { Name := "no".toList } } }, by decide, rfl⟩

theorem config_networkMode_set_witness :
    (["host".toList] = [] →
        "host".toList = "bridge".toList)
      ∧ (["host".toList] ≠ [] →
          ∃ d ∈ ["host".toList], ∃ name par mode,
            parseNetwork stdLibs d = .ok (name, par, mode)
            ∧ ("host".toList = name
                ∨ (name = "container".toList ∧ "host".toList = "container:".toList ++ par)))
      ∧ ((∀ d ∈ ["host".toList], ∀ name par mode,
            parseNetwork stdLibs d = .ok (name, par, mode) → name ≠ []) →
          "host".toList ≠ []) :=
  config_networkMode_set stdLibs { networks := ["host".toList] }
    { HostConfig := { RestartPolicy := { Name := "no".toList },
                      NetworkMode := "host".toList } }
    (by decide)

/-- C8, the code at a bare IP address: for the network list `172.17.0.2`, `config`
succeeds with an empty `NetworkMode` (not `bridge`) and registers the address under the
empty network name (not under `bridge`). -/
theorem config_bare_ip :
    container.config stdLibs { networks := ["172.17.0.2".toList] }
      = .ok { HostConfig := { RestartPolicy := { Name := "no".toList }, NetworkMode := [] },
              NetworkingConfig := { EndpointsConfig :=
                [([], { IPAddress := "172.17.0.2".toList,
                        IPAMConfig := some { IPV4Address := "172.17.0.2".toList } })] } } := by
  decide

/-- C9, as the code behaves: when `config` succeeds on a list without `container`
descriptor, `NetworkMode` is the name of the last descriptor whose mode qualifier is
`mode`, when that name is non-empty; and when no descriptor has the qualifier `mode`,
it is the name of the first descriptor, when that name is non-empty. -/
theorem config_networkMode_marked (L : Libs) (c : container) (cfg : ContainerCreateConfig)
    (h : c.config L = .ok cfg)
    (hnc : ∀ d ∈ c.networks, ∀ name par mode, parseNetwork L d = .ok (name, par, mode) →
      name ≠ "container".toList) :
    (∀ pre d post name par, c.networks = pre ++ d :: post →
        parseNetwork L d = .ok (name, par, "mode".toList) → name ≠ [] →
        (∀ d2 ∈ post, ∀ n p m, parseNetwork L d2 = .ok (n, p, m) → m ≠ "mode".toList) →
        cfg.HostConfig.NetworkMode = name)
      ∧ (∀ d rest name par mode, c.networks = d :: rest →
        parseNetwork L d = .ok (name, par, mode) → name ≠ [] →
        (∀ d2 ∈ c.networks, ∀ n p m, parseNetwork L d2 = .ok (n, p, m) → m ≠ "mode".toList) →
        cfg.HostConfig.NetworkMode = name) := by
  obtain ⟨-, -, hnet⟩ := config_ok L c cfg h
  constructor
  · intro pre d post name par hnets hparse hname hpost
    rw [hnets] at hnet hnc
    unfold configNetworks at hnet
    obtain ⟨st0, -, h0⟩ := foldlM_configNetwork_append L pre _ _ (d :: post) hnet
    obtain ⟨st1, h1, h2⟩ := foldlM_configNetwork_cons L st0 _ d post h0
    obtain ⟨n1, p1, m1, hp1, hmode⟩ := configNetwork_mode L st0 st1 d h1
    rw [hparse] at hp1
    injection hp1 with hp1
    injection hp1 with hn hp1
    injection hp1 with _ hm
    subst hn hm
    have hc : name ≠ "container".toList := hnc d (by simp) name par _ hparse
    rw [if_neg hc, if_pos (Or.inr rfl)] at hmode
    have hstable := foldlM_configNetwork_stable L post st1 _ h2 (by rw [hmode]; exact hname)
      (fun d2 hd2 n p m hp =>
        ⟨hnc d2 (by simp [hd2]) n p m hp, hpost d2 hd2 n p m hp⟩)
    exact hstable.trans hmode
  · intro d rest name par mode hnets hparse hname hall
    rw [hnets] at hnet hnc hall
    obtain ⟨st1, n1, p1, m1, hp1, hst1, hrest⟩ := configNetworks_first L d rest _ hnet
    rw [hparse] at hp1
    injection hp1 with hp1
    injection hp1 with hn hp1
    subst hn
    have hc : name ≠ "container".toList := hnc d (by simp) name par _ hparse
    rw [if_neg hc] at hst1
    have hstable := foldlM_configNetwork_stable L rest st1 _ hrest (by rw [hst1]; exact hname)
      (fun d2 hd2 n p m hp =>
        ⟨hnc d2 (by simp [hd2]) n p m hp, hall d2 (by simp [hd2]) n p m hp⟩)
    exact hstable.trans hst1

/-- C9, counterexample: of the two descriptors `a:mode` and `b:mode`, both marked, the
network mode is the name of the second, not of the first. -/
theorem config_networkMode_last_marked :
    ∃ cfg, container.config stdLibs { networks := ["a:mode".toList, "b:mode".toList] } = .ok cfg
      ∧ cfg.HostConfig.NetworkMode = "b".toList
      ∧ cfg.HostConfig.NetworkMode ≠ "a".toList :=
  ⟨{ HostConfig := { RestartPolicy := { Name := "no".toList }, NetworkMode := "b".toList } },
    by decide, rfl, by decide⟩

theorem config_networkMode_marked_witness :
    container.config stdLibs
        { networks := ["a:mode".toList, "b:mode".toList, "c".toList] }
      = .ok { HostConfig := { RestartPolicy := { Name := "no".toList },
                              NetworkMode := "b".toList } }
      ∧ "b".toList = "b".toList := by
  have hcfg : container.config stdLibs
      { networks := ["a:mode".toList, "b:mode".toList, "c".toList] }
      = .ok { HostConfig := { RestartPolicy := { Name := "no".toList },
                              NetworkMode := "b".toList } } := by decide
  have ha : parseNetwork stdLibs "a:mode".toList = .ok ("a".toList, [], "mode".toList) := by
    decide
  have hb : parseNetwork stdLibs "b:mode".toList = .ok ("b".toList, [], "mode".toList) := by
    decide
  have hc : parseNetwork stdLibs "c".toList = .ok ("c".toList, [], []) := by decide
  refine ⟨hcfg, (config_networkMode_marked stdLibs _ _ hcfg ?_).1
    ["a:mode".toList] "b:mode".toList ["c".toList] "b".toList [] rfl hb (by decide) ?_⟩
  · intro d hd n p m hp
    simp only [List.mem_cons, List.mem_singleton, List.mem_nil_iff, or_false] at hd
    rcases hd with rfl | rfl | rfl
    · rw [ha] at hp; cases hp; decide
    · rw [hb] at hp; cases hp; decide
    · rw [hc] at hp; cases hp; decide
  · intro d hd n p m hp
    simp only [List.mem_singleton] at hd
    subst hd
    rw [hc] at hp; cases hp; decide

/-- C10, as the code behaves: when `config` succeeds on a list of descriptors (of two or
more, as of one) without mode qualifier, none of them a `container` descriptor, and the
first descriptor has a non-empty name, no later descriptor overwrites `networkMode`:
it is the name of the first descriptor. -/
theorem config_networkMode_first (L : Libs) (c : container) (cfg : ContainerCreateConfig)
    (h : c.config L = .ok cfg) (d : GoString) (rest : List GoString) (name par : GoString)
    (hnets : c.networks = d :: rest)
    (hfirst : parseNetwork L d = .ok (name, par, [])) (hname : name ≠ [])
    (hall : ∀ d2 ∈ c.networks, ∀ n p m, parseNetwork L d2 = .ok (n, p, m) →
      n ≠ "container".toList ∧ m = []) :
    cfg.HostConfig.NetworkMode = name := by
  obtain ⟨-, -, hnet⟩ := config_ok L c cfg h
  rw [hnets] at hnet hall
  obtain ⟨st1, n1, p1, m1, hp1, hst1, hrest⟩ := configNetworks_first L d rest _ hnet
  rw [hfirst] at hp1
  injection hp1 with hp1
  injection hp1 with hn hp1
  subst hn
  have hc : name ≠ "container".toList := (hall d (by simp) name par _ hfirst).1
  rw [if_neg hc] at hst1
  have hstable := foldlM_configNetwork_stable L rest st1 _ hrest (by rw [hst1]; exact hname)
    (fun d2 hd2 n p m hp => by
      obtain ⟨h1, h2⟩ := hall d2 (by simp [hd2]) n p m hp
      refine ⟨h1, ?_⟩
      rw [h2]
      decide)
  exact hstable.trans hst1

/-- C10, counterexample: of the two descriptors `a` and `b`, which name different
networks and carry no mode qualifier, the network mode is the name of the first, not of
the last. -/
theorem config_networkMode_not_last :
    ∃ cfg, container.config stdLibs { networks := ["a".toList, "b".toList] } = .ok cfg
      ∧ cfg.HostConfig.NetworkMode = "a".toList
      ∧ cfg.HostConfig.NetworkMode ≠ "b".toList :=
  ⟨{ HostConfig := { RestartPolicy := { Name := "no".toList }, NetworkMode := "a".toList } },
    by decide, rfl, by decide⟩

theorem config_networkMode_first_witness :
    container.config stdLibs { networks := ["mynet".toList, "other".toList] }
      = .ok { HostConfig := { RestartPolicy := { Name := "no".toList },
                              NetworkMode := "mynet".toList } }
      ∧ "mynet".toList = "mynet".toList := by
  have hcfg : container.config stdLibs { networks := ["mynet".toList, "other".toList] }
      = .ok { HostConfig := { RestartPolicy := { Name := "no".toList },
                              NetworkMode := "mynet".toList } } := by decide
  have ha : parseNetwork stdLibs "mynet".toList = .ok ("mynet".toList, [], []) := by decide
  have hb : parseNetwork stdLibs "other".toList = .ok ("other".toList, [], []) := by decide
  refine ⟨hcfg, config_networkMode_first stdLibs _ _ hcfg "mynet".toList ["other".toList]
    "mynet".toList [] rfl ha (by decide) ?_⟩
  intro d hd n p m hp
  simp only [List.mem_cons, List.mem_singleton, List.mem_nil_iff, or_false] at hd
  rcases hd with rfl | rfl
  · rw [ha] at hp; cases hp; exact ⟨by decide, rfl⟩
  · rw [hb] at hp; cases hp; exact ⟨by decide, rfl⟩

/-! ## Container network mode, descriptor parsing, end-to-end translation -/

theorem config_networks_only (L : Libs) (nets : List GoString) (net : NetworkState)
    (hports : L.ParsePortSpecs [] = .ok ([], []))
    (hnet : configNetworks L nets = .ok net) :
    container.config L { networks := nets }
      = .ok { HostConfig := { RestartPolicy := { Name := "no".toList },
                              NetworkMode := net.networkMode },
              NetworkingConfig := { EndpointsConfig := net.EndpointsConfig } } := by
  simp only [container.config, bind, Except.bind, pure, Except.pure, throw, throwThe,
    MonadExceptOf.throw]
  rw [hnet, hports]
  rfl

theorem parseNetwork_container (L : Libs) (t : GoString) (ht : ':' ∉ t) :
    parseNetwork L ("container:".toList ++ t) = .ok ("container".toList, t, []) := by
  have hstr : "container:".toList ++ t = "container".toList ++ ':' :: t := by
    have : "container:".toList = "container".toList ++ [':'] := by decide
    rw [this, List.append_assoc]; rfl
  have hsep : ':' ∉ "container".toList := by decide
  have hne : ¬ "container".toList ++ ':' :: t = [] := by simp
  rw [hstr]
  simp only [parseNetwork, hne, if_false, Split_append ':' _ _ hsep,
    Split_of_not_mem ':' _ ht, List.length_cons, List.length_nil, List.getD_cons_zero,
    List.getD_cons_succ]
  simp

theorem configNetworks_container (L : Libs) (t : GoString) (ht : ':' ∉ t) :
    configNetworks L ["container:".toList ++ t]
      = .ok { networkMode := "container:".toList ++ t, EndpointsConfig := [] } := by
  have hmode : "container".toList ++ ":".toList ++ t = "container:".toList ++ t := by
    have : "container:".toList = "container".toList ++ ":".toList := by decide
    rw [this]
  simp only [configNetworks, List.foldlM_cons, List.foldlM_nil, configNetwork,
    parseNetwork_container L t ht, if_true, hmode, bind, Except.bind, pure, Except.pure]

/-- C11: for every target `t` without `:`, `config` on the network list
`["container:" + t]` gives the network mode `"container:" + t` and an `EndpointsConfig`
without entry, whether or not `t` is an IP literal: the network part of `config` returns
this, every successful `config` on such a list carries it, and `config` succeeds on the
specification that has this list and zero values elsewhere. -/
theorem config_container_network (L : Libs) (t : GoString) (ht : ':' ∉ t) :
    configNetworks L ["container:".toList ++ t]
        = .ok { networkMode := "container:".toList ++ t, EndpointsConfig := [] }
      ∧ (∀ (c : container) (cfg : ContainerCreateConfig),
          c.networks = ["container:".toList ++ t] → c.config L = .ok cfg →
          cfg.HostConfig.NetworkMode = "container:".toList ++ t
            ∧ cfg.NetworkingConfig.EndpointsConfig = [])
      ∧ (L.ParsePortSpecs [] = .ok ([], []) →
          container.config L { networks := ["container:".toList ++ t] }
            = .ok { HostConfig := { RestartPolicy := { Name := "no".toList },
                                    NetworkMode := "container:".toList ++ t },
                    NetworkingConfig := { EndpointsConfig := [] } }) := by
  have hnet := configNetworks_container L t ht
  refine ⟨hnet, ?_, ?_⟩
  · intro c cfg hnets hcfg
    obtain ⟨-, -, hres⟩ := config_ok L c cfg hcfg
    rw [hnets, hnet] at hres
    injection hres with hres
    injection hres with h1 h2
    exact ⟨h1.symm, h2.symm⟩
  · intro hports
    exact config_networks_only L _ _ hports hnet

theorem config_container_network_witness :
    configNetworks stdLibs ["container:".toList ++ "172.17.0.2".toList]
        = .ok { networkMode := "container:".toList ++ "172.17.0.2".toList,
                EndpointsConfig := [] }
      ∧ (∀ (c : container) (cfg : ContainerCreateConfig),
          c.networks = ["container:".toList ++ "172.17.0.2".toList] →
          c.config stdLibs = .ok cfg →
          cfg.HostConfig.NetworkMode = "container:".toList ++ "172.17.0.2".toList
            ∧ cfg.NetworkingConfig.EndpointsConfig = [])
      ∧ (stdLibs.ParsePortSpecs [] = .ok ([], []) →
          container.config stdLibs { networks := ["container:".toList ++ "172.17.0.2".toList] }
            = .ok { HostConfig := { RestartPolicy := { Name := "no".toList },
                                    NetworkMode := "container:".toList ++ "172.17.0.2".toList },
                    NetworkingConfig := { EndpointsConfig := [] } }) :=
  config_container_network stdLibs "172.17.0.2".toList (by decide)

/-- C12, as the code behaves: `parseNetwork` returns a (name, parameter, mode) triple
and no error for every descriptor but the empty one, which it rejects. -/
theorem parseNetwork_ok_iff (L : Libs) (network : GoString) :
    (network ≠ [] → ∃ name par mode, parseNetwork L network = .ok (name, par, mode))
      ∧ (network = [] →
          parseNetwork L network
            = .error (.Errorf "invalid network: cannot be empty".toList [])) := by
  constructor
  · intro hne
    simp only [parseNetwork, if_neg hne]
    split_ifs <;> exact ⟨_, _, _, rfl⟩
  · intro hnil
    simp only [parseNetwork, if_pos hnil]

/-- C12, counterexample: the empty descriptor is a failure case of `parseNetwork`. -/
theorem parseNetwork_empty :
    parseNetwork stdLibs [] = .error (.Errorf "invalid network: cannot be empty".toList []) := by
  decide

theorem exposeRange_two (L : Libs)
    (h80 : L.NewPort "tcp".toList "80".toList = .ok "80/tcp".toList)
    (h81 : L.NewPort "tcp".toList "81".toList = .ok "81/tcp".toList) :
    exposeRange L "tcp".toList 80 2 []
      = .ok [("80/tcp".toList, Unit.unit), ("81/tcp".toList, Unit.unit)] := by
  have f80 : FormatUint 80 = "80".toList := by decide
  have f81 : FormatUint 81 = "81".toList := by decide
  have g80 : (GoMap.get ([] : GoMap Unit) "80/tcp".toList).isSome = false := by decide
  have g81 : (GoMap.get (GoMap.set ([] : GoMap Unit) "80/tcp".toList ()) "81/tcp".toList).isSome
      = false := by decide
  have hset : GoMap.set (GoMap.set ([] : GoMap Unit) "80/tcp".toList ()) "81/tcp".toList ()
      = [("80/tcp".toList, Unit.unit), ("81/tcp".toList, Unit.unit)] := by decide
  simp only [exposeRange, f80, h80, g80, Nat.reduceAdd, f81, h81, g81, hset, Bool.false_eq_true,
    if_false]

/-- C13: with the values the libraries give at the strings of this specification
(`units.RAMInBytes("100m")` is 104857600, `net.ParseIP` accepts `172.17.0.5`,
`nat.ParsePortSpecs` of no port is empty, `80-81/tcp` is the range 80 to 81 of `tcp`,
and the ports are written `80/tcp` and `81/tcp`), `config` succeeds on memory `100m`,
restart policy `on-failure:3`, network `mynet:172.17.0.5` and expose `80-81/tcp`, with
`Memory` 104857600, restart policy `on-failure` with count 3, network mode `mynet`, the
endpoint 172.17.0.5 under `mynet`, and exactly the exposed ports `80/tcp` and `81/tcp`. -/
theorem config_end_to_end (L : Libs)
    (hram : L.RAMInBytes "100m".toList = .ok 104857600)
    (hip : L.ParseIP "172.17.0.5".toList = true)
    (hspecs : L.ParsePortSpecs [] = .ok ([], []))
    (hproto : L.SplitProtoPort "80-81/tcp".toList = ("tcp".toList, "80-81".toList))
    (hrange : L.ParsePortRange "80-81".toList = .ok (80, 81))
    (h80 : L.NewPort "tcp".toList "80".toList = .ok "80/tcp".toList)
    (h81 : L.NewPort "tcp".toList "81".toList = .ok "81/tcp".toList) :
    container.config L
        { memory := "100m".toList, restartPolicy := "on-failure:3".toList,
          networks := ["mynet:172.17.0.5".toList], expose := ["80-81/tcp".toList] }
      = .ok { ContainerConfig :=
                { ExposedPorts := [("80/tcp".toList, Unit.unit), ("81/tcp".toList, Unit.unit)] },
              HostConfig :=
                { Resources := { Memory := 104857600 },
                  RestartPolicy := { Name := "on-failure".toList, MaximumRetryCount := 3 },
                  NetworkMode := "mynet".toList },
              NetworkingConfig :=
                { EndpointsConfig :=
                    [("mynet".toList,
                      { IPAddress := "172.17.0.5".toList,
                        IPAMConfig := some { IPV4Address := "172.17.0.5".toList } })] } } := by
  have hmem : parseMemory L "100m".toList = .ok 104857600 := by
    have hne : ¬ "100m".toList = [] := by decide
    simp only [parseMemory, if_neg hne, hram]
  have hpolicy : parseRestartPolicy "on-failure:3".toList
      = .ok { Name := "on-failure".toList, MaximumRetryCount := 3 } := by decide
  have hparse : parseNetwork L "mynet:172.17.0.5".toList
      = .ok ("mynet".toList, "172.17.0.5".toList, []) := by
    have hne : ¬ "mynet:172.17.0.5".toList = [] := by decide
    have hsplit : Split "mynet:172.17.0.5".toList ':'
        = ["mynet".toList, "172.17.0.5".toList] := by decide
    have hname : ¬ "mynet".toList = "container".toList := by decide
    simp only [parseNetwork, if_neg hne, hsplit, List.length_cons, List.length_nil,
      List.getD_cons_zero, List.getD_cons_succ, if_neg hname, hip, if_true]
    simp
  have hnet : configNetworks L ["mynet:172.17.0.5".toList]
      = .ok { networkMode := "mynet".toList,
              EndpointsConfig :=
                [("mynet".toList,
                  { IPAddress := "172.17.0.5".toList,
                    IPAMConfig := some { IPV4Address := "172.17.0.5".toList } })] } := by
    have hname : ¬ "mynet".toList = "container".toList := by decide
    simp only [configNetworks, List.foldlM_cons, List.foldlM_nil, configNetwork, hparse,
      if_neg hname, hip, if_true, bind, Except.bind, pure, Except.pure]
    rfl
  have hexpose : List.foldlM (configExpose L) ([] : GoMap Unit) ["80-81/tcp".toList]
      = .ok [("80/tcp".toList, Unit.unit), ("81/tcp".toList, Unit.unit)] := by
    have hcolon : ¬ ':' ∈ "80-81/tcp".toList := by decide
    simp only [List.foldlM_cons, List.foldlM_nil, configExpose, if_neg hcolon, hproto, hrange,
      Nat.reduceAdd, Nat.reduceSub, exposeRange_two L h80 h81, bind, Except.bind, pure,
      Except.pure]
  simp only [container.config, bind, Except.bind, pure, Except.pure, throw, throwThe,
    MonadExceptOf.throw, hmem, hpolicy, hnet, hspecs, List.foldl_nil, hexpose]
  rfl

theorem config_end_to_end_witness :
    container.config goLibs
        { memory := "100m".toList, restartPolicy := "on-failure:3".toList,
          networks := ["mynet:172.17.0.5".toList], expose := ["80-81/tcp".toList] }
      = .ok { ContainerConfig :=
                { ExposedPorts := [("80/tcp".toList, Unit.unit), ("81/tcp".toList, Unit.unit)] },
              HostConfig :=
                { Resources := { Memory := 104857600 },
                  RestartPolicy := { Name := "on-failure".toList, MaximumRetryCount := 3 },
                  NetworkMode := "mynet".toList },
              NetworkingConfig :=
                { EndpointsConfig :=
                    [("mynet".toList,
                      { IPAddress := "172.17.0.5".toList,
                        IPAMConfig := some { IPV4Address := "172.17.0.5".toList } })] } } :=
  config_end_to_end goLibs (by decide) (by decide) (by decide) (by decide) (by decide)
    (by decide) (by decide)

/-! ## Name generation -/

theorem generateNameLoop_succ (mgr : ContainerManager) (id : GoString) (fuel : Nat) :
    ∀ (i : Nat) (name : GoString) (r : GoString × Nat),
      generateNameLoop mgr id fuel i name = some r →
      generateNameLoop mgr id (fuel + 1) i name = some r := by
  induction fuel with
  | zero => intro i name r h; simp [generateNameLoop] at h
  | succ fuel ih =>
    intro i name r h
    rw [generateNameLoop] at h ⊢
    by_cases h1 : i + 6 > id.length
    · rw [if_pos h1] at h ⊢; exact h
    · rw [if_neg h1] at h ⊢
      dsimp only at h ⊢
      by_cases h2 : (!mgr.NameToID.Exist (List.take 6 (List.drop i id))) = true
      · rw [if_pos h2] at h ⊢; exact h
      · rw [if_neg h2] at h ⊢; exact ih _ _ _ h

theorem generateNameLoop_mono (mgr : ContainerManager) (id : GoString) (fuel extra : Nat)
    (i : Nat) (name : GoString) (r : GoString × Nat)
    (h : generateNameLoop mgr id fuel i name = some r) :
    generateNameLoop mgr id (fuel + extra) i name = some r := by
  induction extra with
  | zero => exact h
  | succ extra ih => exact generateNameLoop_succ mgr id (fuel + extra) i name r ih

theorem generateNameLoop_total (mgr : ContainerManager) (id : GoString) (fuel : Nat) :
    ∀ (i : Nat) (name : GoString), id.length - 5 - i < fuel →
      ∃ name1 probes, generateNameLoop mgr id fuel i name = some (name1, probes)
        ∧ i ≤ probes ∧ probes ≤ max i (id.length - 5) := by
  induction fuel with
  | zero => intro i name h; omega
  | succ fuel ih =>
    intro i name h
    rw [generateNameLoop]
    by_cases h1 : i + 6 > id.length
    · rw [if_pos h1]
      exact ⟨name, i, rfl, le_refl _, le_max_left _ _⟩
    · rw [if_neg h1]
      dsimp only
      by_cases h2 : (!mgr.NameToID.Exist (List.take 6 (List.drop i id))) = true
      · rw [if_pos h2]
        refine ⟨_, _, rfl, by omega, ?_⟩
        have : i + 1 ≤ id.length - 5 := by omega
        exact le_trans this (le_max_right _ _)
      · rw [if_neg h2]
        obtain ⟨name1, probes, hloop, hlo, hhi⟩ := ih (i + 1) (List.take 6 (List.drop i id))
          (by omega)
        refine ⟨name1, probes, hloop, by omega, ?_⟩
        have hmax : max (i + 1) (id.length - 5) = id.length - 5 := by
          apply max_eq_right; omega
        rw [hmax] at hhi
        exact le_trans hhi (le_max_right _ _)

theorem generateNameLoop_first_absent (mgr : ContainerManager) (id : GoString) (fuel : Nat) :
    ∀ (i0 i : Nat) (name : GoString), i0 ≤ i → i + 6 ≤ id.length →
      mgr.NameToID.Exist ((id.drop i).take 6) = false →
      (∀ j, i0 ≤ j → j < i → mgr.NameToID.Exist ((id.drop j).take 6) = true) →
      i - i0 < fuel →
      generateNameLoop mgr id fuel i0 name = some ((id.drop i).take 6, i + 1) := by
  induction fuel with
  | zero => intro i0 i name _ _ _ _ h; omega
  | succ fuel ih =>
    intro i0 i name hle hi habs hpre hfuel
    rw [generateNameLoop]
    have h1 : ¬ i0 + 6 > id.length := by omega
    rw [if_neg h1]
    dsimp only
    by_cases heq : i0 = i
    · subst heq
      simp [habs]
    · have hlt : i0 < i := by omega
      have hpres := hpre i0 (le_refl _) hlt
      simp only [hpres, Bool.not_true, Bool.false_eq_true, if_false]
      exact ih (i0 + 1) i _ (by omega) hi habs
        (fun j hj1 hj2 => hpre j (by omega) hj2) (by omega)

theorem generateNameLoop_all_present (mgr : ContainerManager) (id : GoString) (fuel : Nat) :
    ∀ (i : Nat) (name : GoString), i ≤ id.length - 5 →
      (∀ j, j + 6 ≤ id.length → mgr.NameToID.Exist ((id.drop j).take 6) = true) →
      id.length - 5 - i < fuel →
      ∃ name1, generateNameLoop mgr id fuel i name = some (name1, id.length - 5) := by
  induction fuel with
  | zero => intro i name _ _ h; omega
  | succ fuel ih =>
    intro i name hi hall hfuel
    rw [generateNameLoop]
    by_cases h1 : i + 6 > id.length
    · rw [if_pos h1]
      have : i = id.length - 5 := by omega
      exact ⟨name, by rw [this]⟩
    · rw [if_neg h1]
      dsimp only
      have hpres := hall i (by omega)
      simp only [hpres, Bool.not_true, Bool.false_eq_true, if_false]
      exact ih (i + 1) _ (by omega) hall (by omega)

/-- C14, the code where every window is taken: for the ID of 64 characters `a`, whose
windows are all `aaaaaa`, and a name index that holds `aaaaaa`, `generateName` returns
`aaaaaa`, a name present in the index; and for the ID `abc`, shorter than a window, it
returns the empty name. -/
theorem generateName_returns_taken :
    ContainerManager.generateName
        { NameToID := { entries := [("aaaaaa".toList, List.replicate 64 'b')] } }
        (List.replicate 64 'a') = "aaaaaa".toList
      ∧ SafeMap.Exist { entries := [("aaaaaa".toList, List.replicate 64 'b')] }
          "aaaaaa".toList = true
      ∧ ContainerManager.generateName { } "abc".toList = [] := by
  decide

/-- C15: when some 6-character window of the ID is absent from the name index,
`generateName` returns the absent window of least start offset `i`: the windows at the
offsets below `i` are all present, and the result is `id[i..i+6)`. -/
theorem generateName_least_absent (mgr : ContainerManager) (id : GoString)
    (h : ∃ i, i + 6 ≤ id.length ∧ mgr.NameToID.Exist ((id.drop i).take 6) = false) :
    ∃ i, i + 6 ≤ id.length
      ∧ mgr.NameToID.Exist ((id.drop i).take 6) = false
      ∧ (∀ j, j < i → mgr.NameToID.Exist ((id.drop j).take 6) = true)
      ∧ mgr.generateName id = (id.drop i).take 6 := by
  classical
  obtain ⟨hlen, habs⟩ := Nat.find_spec h
  have hmin : ∀ j, j < Nat.find h → mgr.NameToID.Exist ((id.drop j).take 6) = true := by
    intro j hj
    have hnot := Nat.find_min h hj
    have hjlen : j + 6 ≤ id.length := by omega
    cases hex : mgr.NameToID.Exist ((id.drop j).take 6) with
    | true => rfl
    | false => exact absurd ⟨hjlen, hex⟩ hnot
  refine ⟨Nat.find h, hlen, habs, hmin, ?_⟩
  have hloop := generateNameLoop_first_absent mgr id (id.length + 1) 0 (Nat.find h) []
    (Nat.zero_le _) hlen habs (fun j _ hj => hmin j hj) (by omega)
  simp only [ContainerManager.generateName, hloop]

theorem generateName_least_absent_witness :
    ∃ i, i + 6 ≤ "abcdefg".toList.length
      ∧ SafeMap.Exist { entries := [("abcdef".toList, "abcdef0123".toList)] }
          (("abcdefg".toList.drop i).take 6) = false
      ∧ (∀ j, j < i →
          SafeMap.Exist { entries := [("abcdef".toList, "abcdef0123".toList)] }
            (("abcdefg".toList.drop j).take 6) = true)
      ∧ ContainerManager.generateName
          { NameToID := { entries := [("abcdef".toList, "abcdef0123".toList)] } }
          "abcdefg".toList = ("abcdefg".toList.drop i).take 6 :=
  generateName_least_absent
    { NameToID := { entries := [("abcdef".toList, "abcdef0123".toList)] } }
    "abcdefg".toList ⟨1, by decide, by decide⟩

/-- C16: the loop of `generateName` ends for every ID and every name index: with any
number of iterations above `max(0, len(id) - 5)` allowed, it returns the same name after
the same number of probes, at most `max(0, len(id) - 5)`; when every window is in the
name index it has probed all of them and stops there. -/
theorem generateName_terminates (mgr : ContainerManager) (id : GoString) :
    ∃ name probes,
      (∀ fuel, id.length - 5 < fuel →
          generateNameLoop mgr id fuel 0 [] = some (name, probes))
        ∧ mgr.generateName id = name
        ∧ probes ≤ id.length - 5
        ∧ ((∀ j, j + 6 ≤ id.length → mgr.NameToID.Exist ((id.drop j).take 6) = true) →
            probes = id.length - 5) := by
  obtain ⟨name, probes, hloop, -, hhi⟩ :=
    generateNameLoop_total mgr id (id.length - 5 + 1) 0 [] (by omega)
  have hfuel : ∀ fuel, id.length - 5 < fuel →
      generateNameLoop mgr id fuel 0 [] = some (name, probes) := by
    intro fuel hf
    have := generateNameLoop_mono mgr id (id.length - 5 + 1) (fuel - (id.length - 5 + 1)) 0 []
      _ hloop
    have he : id.length - 5 + 1 + (fuel - (id.length - 5 + 1)) = fuel := by omega
    rw [he] at this
    exact this
  refine ⟨name, probes, hfuel, ?_, ?_, ?_⟩
  · simp only [ContainerManager.generateName, hfuel (id.length + 1) (by omega)]
  · simpa using hhi
  · intro hall
    obtain ⟨name1, h1⟩ := generateNameLoop_all_present mgr id (id.length - 5 + 1) 0 []
      (Nat.zero_le _) hall (by omega)
    rw [hloop] at h1
    injection h1 with h1
    injection h1 with _ h1

/-! ## ID generation and container lookup -/

theorem generateIDLoop_found (Get : GoString → Except Error Object)
    (IsNotfound : Error → Bool) (Generate : Nat → GoString) (k : Nat) :
    ∀ (fuel n : Nat) (e : Error),
      (∀ j, j < k → ∃ obj, Get (Generate (n + j)) = .ok obj) →
      Get (Generate (n + k)) = .error e → k < fuel →
      generateIDLoop Get IsNotfound Generate fuel n
        = some (if IsNotfound e then .ok (Generate (n + k)) else .error e) := by
  induction k with
  | zero =>
    intro fuel n e _ herr hfuel
    obtain ⟨fuel, rfl⟩ : ∃ f, fuel = f + 1 := ⟨fuel - 1, by omega⟩
    rw [Nat.add_zero] at herr
    simp only [generateIDLoop, herr, Nat.add_zero]
    split_ifs <;> rfl
  | succ k ih =>
    intro fuel n e hfound herr hfuel
    obtain ⟨fuel, rfl⟩ : ∃ f, fuel = f + 1 := ⟨fuel - 1, by omega⟩
    obtain ⟨obj, hobj⟩ := hfound 0 (by omega)
    rw [Nat.add_zero] at hobj
    have hstep := ih fuel (n + 1) e
      (fun j hj => by
        have := hfound (j + 1) (by omega)
        rwa [show n + (j + 1) = n + 1 + j by omega] at this)
      (by rwa [show n + (k + 1) = n + 1 + k by omega] at herr) (by omega)
    rw [show n + 1 + k = n + (k + 1) by omega] at hstep
    simp only [generateIDLoop, hobj]
    exact hstep

theorem generateIDLoop_result (Get : GoString → Except Error Object)
    (IsNotfound : Error → Bool) (Generate : Nat → GoString) (fuel : Nat) :
    ∀ (n : Nat) (r : Except Error GoString),
      generateIDLoop Get IsNotfound Generate fuel n = some r →
      ∃ k e, k < fuel ∧ (∀ j, j < k → ∃ obj, Get (Generate (n + j)) = .ok obj)
        ∧ Get (Generate (n + k)) = .error e
        ∧ r = (if IsNotfound e then .ok (Generate (n + k)) else .error e) := by
  induction fuel with
  | zero => intro n r h; simp [generateIDLoop] at h
  | succ fuel ih =>
    intro n r h
    rw [generateIDLoop] at h
    try dsimp only at h
    cases hget : Get (Generate n) with
    | error e =>
      rw [hget] at h
      try dsimp only at h
      refine ⟨0, e, by omega, fun j hj => absurd hj (Nat.not_lt_zero j), by simpa using hget, ?_⟩
      rw [Nat.add_zero]
      split_ifs at h ⊢ <;> exact (Option.some.inj h).symm
    | ok obj =>
      rw [hget] at h
      try dsimp only at h
      obtain ⟨k, e, hk, hfound, herr, hr⟩ := ih (n + 1) r h
      refine ⟨k + 1, e, by omega, ?_, by rwa [show n + (k + 1) = n + 1 + k by omega], ?_⟩
      · intro j hj
        cases j with
        | zero => exact ⟨obj, by simpa using hget⟩
        | succ j =>
          have := hfound j (by omega)
          rwa [show n + 1 + j = n + (j + 1) by omega] at this
      · rwa [show n + (k + 1) = n + 1 + k by omega]

/-- C17: for every sequence of candidate IDs and every behaviour of `Store.Get`: an ID
that `generateID` returns is the first candidate on which `Store.Get` reports a
not-found error, every earlier candidate having been found; when the first error of
`Store.Get` is not a not-found error, `generateID` returns that error and no ID; and
when it is a not-found error, `generateID` does return that candidate. -/
theorem generateID_first_notfound (Get : GoString → Except Error Object)
    (IsNotfound : Error → Bool) (Generate : Nat → GoString) :
    (∀ fuel id, generateID Get IsNotfound Generate fuel = some (.ok id) →
        ∃ k e, id = Generate k ∧ Get (Generate k) = .error e ∧ IsNotfound e = true
          ∧ ∀ j, j < k → ∃ obj, Get (Generate j) = .ok obj)
      ∧ (∀ k e, (∀ j, j < k → ∃ obj, Get (Generate j) = .ok obj) →
          Get (Generate k) = .error e → IsNotfound e = false →
          ∀ fuel, k < fuel → generateID Get IsNotfound Generate fuel = some (.error e))
      ∧ (∀ k e, (∀ j, j < k → ∃ obj, Get (Generate j) = .ok obj) →
          Get (Generate k) = .error e → IsNotfound e = true →
          ∀ fuel, k < fuel →
            generateID Get IsNotfound Generate fuel = some (.ok (Generate k))) := by
  refine ⟨?_, ?_, ?_⟩
  · intro fuel id h
    obtain ⟨k, e, -, hfound, herr, hr⟩ :=
      generateIDLoop_result Get IsNotfound Generate fuel 0 _ h
    simp only [Nat.zero_add] at hfound herr hr
    by_cases hnf : IsNotfound e = true
    · rw [if_pos hnf] at hr
      exact ⟨k, e, Except.ok.inj hr, herr, hnf, hfound⟩
    · rw [if_neg hnf] at hr
      cases hr
  · intro k e hfound herr hnf fuel hfuel
    have h := generateIDLoop_found Get IsNotfound Generate k fuel 0 e
      (by simpa using hfound) (by simpa using herr) hfuel
    simpa [generateID, hnf] using h
  · intro k e hfound herr hnf fuel hfuel
    have h := generateIDLoop_found Get IsNotfound Generate k fuel 0 e
      (by simpa using hfound) (by simpa using herr) hfuel
    simpa [generateID, hnf] using h

/-- C18: for a token that is not a cache key and that the name index maps to an ID
without cache entry, `container` returns the error `ErrNotfound` and no container. -/
theorem container_stale_index (mgr : ContainerManager) (token id : GoString)
    (htoken : mgr.cache.get token = none) (hindex : mgr.NameToID.Get token = some id)
    (hid : mgr.cache.get id = none) :
    mgr.container token = .error (.Wrap .ErrNotfound ("container ".toList ++ token)) := by
  simp only [ContainerManager.container, htoken, ContainerManager.containerID, hindex, hid]

theorem container_stale_index_witness :
    ContainerManager.container
        { NameToID := { entries := [("web".toList, "abc123".toList)] },
          cache := [("fff000".toList, { meta := { ID := "fff000".toList } })] }
        "web".toList
      = .error (.Wrap .ErrNotfound ("container ".toList ++ "web".toList)) :=
  container_stale_index
    { NameToID := { entries := [("web".toList, "abc123".toList)] },
      cache := [("fff000".toList, { meta := { ID := "fff000".toList } })] }
    "web".toList "abc123".toList (by decide) (by decide) (by decide)

/-! ## Maps built by sequential insertion -/

theorem GoMap.get_set {V : Type} (m : GoMap V) (k : GoString) (v : V) (k2 : GoString) :
    (m.set k v).get k2 = if k = k2 then some v else m.get k2 := by
  induction m with
  | nil => simp [GoMap.set, GoMap.get]
  | cons kv rest ih =>
    obtain ⟨k0, v0⟩ := kv
    by_cases h0 : k0 = k
    · subst h0
      simp only [GoMap.set, GoMap.get, if_true]
      by_cases h2 : k0 = k2 <;> simp [h2]
    · by_cases h2 : k0 = k2
      · subst h2
        have hk : ¬ k = k0 := fun e => h0 e.symm
        simp [GoMap.set, GoMap.get, h0, hk]
      · simp [GoMap.set, GoMap.get, h0, h2, ih]

theorem GoMap.mem_keys_set {V : Type} (m : GoMap V) (k : GoString) (v : V) (k2 : GoString) :
    k2 ∈ (m.set k v).map Prod.fst ↔ k2 = k ∨ k2 ∈ m.map Prod.fst := by
  induction m with
  | nil => simp [GoMap.set]
  | cons kv rest ih =>
    obtain ⟨k0, v0⟩ := kv
    by_cases h0 : k0 = k
    · subst h0
      simp only [GoMap.set, if_true, List.map_cons, List.mem_cons]
      tauto
    · simp only [GoMap.set, if_neg h0, List.map_cons, List.mem_cons, ih]
      tauto

theorem GoMap.nodup_keys_set {V : Type} (m : GoMap V) (k : GoString) (v : V)
    (h : (m.map Prod.fst).Nodup) : ((m.set k v).map Prod.fst).Nodup := by
  induction m with
  | nil => simp [GoMap.set]
  | cons kv rest ih =>
    obtain ⟨k0, v0⟩ := kv
    simp only [List.map_cons, List.nodup_cons] at h
    by_cases h0 : k0 = k
    · subst h0
      simp only [GoMap.set, if_true, List.map_cons, List.nodup_cons]
      exact h
    · simp only [GoMap.set, if_neg h0, List.map_cons, List.nodup_cons,
        GoMap.mem_keys_set]
      exact ⟨fun hc => hc.elim h0 h.1, ih h.2⟩

theorem snoc_eq_append_cons {α : Type} (E pre post : List α) (e x : α)
    (h : E ++ [e] = pre ++ x :: post) :
    (post = [] ∧ pre = E ∧ x = e) ∨ ∃ post1, post = post1 ++ [e] ∧ E = pre ++ x :: post1 := by
  rcases List.eq_nil_or_concat post with hnil | ⟨post1, b, hpost⟩
  · subst hnil
    have h2 : E ++ [e] = pre ++ [x] := h
    obtain ⟨h3, h4⟩ := List.append_inj' h2 rfl
    exact Or.inl ⟨rfl, h3.symm, by simpa using h4.symm⟩
  · rw [List.concat_eq_append] at hpost
    subst hpost
    have h2 : E ++ [e] = (pre ++ x :: post1) ++ [b] := by
      rw [h]; simp
    obtain ⟨h3, h4⟩ := List.append_inj' h2 rfl
    have hb : e = b := by simpa using h4
    subst hb
    exact Or.inr ⟨post1, rfl, h3⟩

theorem lastWins_foldl (carries : GoString → GoString → GoString → Prop)
    (f : GoString → GoString × GoString) (E : List GoString)
    (hcar : ∀ e ∈ E, ∀ k v, carries e k v ↔ f e = (k, v)) :
    LastWins carries E (E.foldl (fun m e => m.set (f e).1 (f e).2) []) := by
  induction E using List.reverseRecOn with
  | nil =>
    refine ⟨by simp, by simp, ?_⟩
    intro k v
    simp [GoMap.get]
  | append_singleton E e ih =>
    have hE : ∀ x ∈ E, ∀ k v, carries x k v ↔ f x = (k, v) :=
      fun x hx => hcar x (by simp [hx])
    have he : ∀ k v, carries e k v ↔ f e = (k, v) := hcar e (by simp)
    obtain ⟨hkeys, hnodup, hget⟩ := ih hE
    rw [List.foldl_append, List.foldl_cons, List.foldl_nil]
    refine ⟨?_, GoMap.nodup_keys_set _ _ _ hnodup, ?_⟩
    · intro k
      rw [GoMap.mem_keys_set, hkeys k]
      constructor
      · rintro (hk | ⟨x, hx, v, hxv⟩)
        · exact ⟨e, by simp, (f e).2, (he k (f e).2).mpr (by rw [hk])⟩
        · exact ⟨x, by simp [hx], v, hxv⟩
      · rintro ⟨x, hx, v, hxv⟩
        rcases List.mem_append.mp hx with hx | hx
        · exact Or.inr ⟨x, hx, v, hxv⟩
        · rw [List.mem_singleton] at hx
          subst hx
          have := (he k v).mp hxv
          exact Or.inl (by rw [this])
    · intro k v
      rw [GoMap.get_set]
      by_cases hk : (f e).1 = k
      · rw [if_pos hk]
        have hfe : ∀ v2, f e = (k, v2) ↔ (f e).2 = v2 := by
          intro v2
          constructor
          · intro h; rw [h]
          · intro h; rw [← hk, ← h]
        constructor
        · intro hv
          have hv2 : (f e).2 = v := Option.some.inj hv
          exact ⟨E, e, [], rfl, (he k v).mpr ((hfe v).mpr hv2), by simp⟩
        · rintro ⟨pre, x, post, hdec, hxv, hpost⟩
          rcases snoc_eq_append_cons E pre post e x hdec with ⟨-, -, hx⟩ | ⟨post1, hp, -⟩
          · subst hx
            have := (hfe v).mp ((he k v).mp hxv)
            rw [this]
          · exfalso
            exact hpost e (by simp [hp]) (f e).2 ((he k _).mpr ((hfe _).mpr rfl))
      · rw [if_neg hk, hget k v]
        have hne : ∀ v2, ¬ carries e k v2 := by
          intro v2 hc
          have := (he k v2).mp hc
          exact hk (by rw [this])
        constructor
        · rintro ⟨pre, x, post, hdec, hxv, hpost⟩
          refine ⟨pre, x, post ++ [e], by rw [hdec]; simp, hxv, ?_⟩
          intro e2 he2 v2
          rcases List.mem_append.mp he2 with h2 | h2
          · exact hpost e2 h2 v2
          · rw [List.mem_singleton] at h2
            subst h2
            exact hne v2
        · rintro ⟨pre, x, post, hdec, hxv, hpost⟩
          rcases snoc_eq_append_cons E pre post e x hdec with ⟨-, -, hx⟩ | ⟨post1, hp, hE2⟩
          · subst hx
            exact absurd hxv (hne v)
          · exact ⟨pre, x, post1, hE2, hxv, fun e2 he2 v2 => hpost e2 (by simp [hp, he2]) v2⟩

/-! ## Labels, sysctls and disk quotas -/

theorem Cut_eq_some (sep : Char) (s : GoString) :
    ∀ a b, Cut sep s = some (a, b) → s = a ++ sep :: b ∧ sep ∉ a := by
  induction s with
  | nil => intro a b h; simp [Cut] at h
  | cons c cs ih =>
    intro a b h
    by_cases hc : c = sep
    · subst hc
      simp only [Cut, if_true, Option.some.injEq, Prod.mk.injEq] at h
      obtain ⟨h1, h2⟩ := h
      subst h1 h2
      simp
    · rw [Cut, if_neg hc] at h
      cases hcut : Cut sep cs with
      | none => rw [hcut] at h; cases h
      | some p =>
        obtain ⟨a1, b1⟩ := p
        rw [hcut] at h
        simp only [Option.some.injEq, Prod.mk.injEq] at h
        obtain ⟨h1, h2⟩ := h
        subst h1 h2
        obtain ⟨h3, h4⟩ := ih a1 b1 hcut
        refine ⟨by rw [h3]; rfl, ?_⟩
        intro hmem
        rcases List.mem_cons.mp hmem with h5 | h5
        · exact hc h5.symm
        · exact h4 h5

theorem Cut_of_mem (sep : Char) (s : GoString) (h : sep ∈ s) :
    ∃ a b, Cut sep s = some (a, b) := by
  cases hcut : Cut sep s with
  | some p => exact ⟨p.1, p.2, rfl⟩
  | none =>
    exfalso
    induction s with
    | nil => simp at h
    | cons c cs ih =>
      by_cases hc : c = sep
      · simp [Cut, hc] at hcut
      · rw [Cut, if_neg hc] at hcut
        cases hcs : Cut sep cs with
        | none =>
          rcases List.mem_cons.mp h with h1 | h1
          · exact hc h1.symm
          · exact ih h1 hcs
        | some p => rw [hcs] at hcut; cases hcut

theorem SplitN_two_of_cut (sep : Char) (s a b : GoString) (h : Cut sep s = some (a, b)) :
    SplitN s sep 2 = [a, b] := by
  simp [SplitN, h]

theorem SplitN_two_of_not_mem (sep : Char) (s : GoString) (h : sep ∉ s) :
    SplitN s sep 2 = [s] := by
  simp [SplitN, Cut_of_not_mem sep s h]

theorem foldlM_keyValue_ok (pl : GoString → Except Error (List GoString))
    (errOf : GoString → Error)
    (hpl : ∀ l, pl l = if (SplitN l '=' 2).length ≠ 2 then .error (errOf l)
      else .ok (SplitN l '=' 2))
    (P : List (GoString × GoString)) :
    ∀ init : GoMap GoString, (∀ p ∈ P, '=' ∉ p.1) →
      List.foldlM
          (fun (results : GoMap GoString) (l : GoString) =>
            match pl l with
            | .error err => (Except.error err : Except Error (GoMap GoString))
            | .ok fields => Except.ok (results.set (fields.getD 0 []) (fields.getD 1 [])))
          init (P.map (fun p => p.1 ++ '=' :: p.2))
        = Except.ok (P.foldl (fun m p => m.set p.1 p.2) init) := by
  induction P with
  | nil => intro init _; rfl
  | cons p P ih =>
    intro init hP
    have hp : '=' ∉ p.1 := hP p (by simp)
    have hsplit : SplitN (p.1 ++ '=' :: p.2) '=' 2 = [p.1, p.2] :=
      SplitN_two_of_cut '=' _ _ _ (Cut_append '=' p.1 p.2 hp)
    have hstep : pl (p.1 ++ '=' :: p.2) = .ok [p.1, p.2] := by
      rw [hpl, hsplit]; rfl
    simp only [List.map_cons, List.foldlM_cons, hstep, List.foldl_cons, bind, Except.bind,
      List.getD_cons_zero, List.getD_cons_succ]
    exact ih _ (fun q hq => hP q (by simp [hq]))

theorem foldlM_keyValue_error (pl : GoString → Except Error (List GoString))
    (errOf : GoString → Error)
    (hpl : ∀ l, pl l = if (SplitN l '=' 2).length ≠ 2 then .error (errOf l)
      else .ok (SplitN l '=' 2))
    (E : List GoString) :
    ∀ init : GoMap GoString, (∃ l ∈ E, '=' ∉ l) →
      ∃ err, List.foldlM
          (fun (results : GoMap GoString) (l : GoString) =>
            match pl l with
            | .error err => (Except.error err : Except Error (GoMap GoString))
            | .ok fields => Except.ok (results.set (fields.getD 0 []) (fields.getD 1 [])))
          init E = Except.error err := by
  induction E with
  | nil => intro init h; simp at h
  | cons l E ih =>
    intro init h
    by_cases hl : '=' ∈ l
    · obtain ⟨a, b, hcut⟩ := Cut_of_mem '=' l hl
      have hstep : pl l = .ok [a, b] := by
        rw [hpl, SplitN_two_of_cut '=' l a b hcut]; rfl
      simp only [List.foldlM_cons, hstep, bind, Except.bind]
      apply ih
      obtain ⟨x, hx, hxe⟩ := h
      rcases List.mem_cons.mp hx with h1 | h1
      · subst h1; exact absurd hl hxe
      · exact ⟨x, h1, hxe⟩
    · have hstep : pl l = .error (errOf l) := by
        rw [hpl, SplitN_two_of_not_mem '=' l hl]; rfl
      exact ⟨errOf l, by simp only [List.foldlM_cons, hstep, bind, Except.bind]⟩

theorem entries_as_pairs (E : List GoString) (h : ∀ l ∈ E, '=' ∈ l) :
    ∃ P : List (GoString × GoString),
      E = P.map (fun p => p.1 ++ '=' :: p.2) ∧ (∀ p ∈ P, '=' ∉ p.1)
        ∧ ∀ p ∈ P, Cut '=' (p.1 ++ '=' :: p.2) = some p := by
  induction E with
  | nil => exact ⟨[], rfl, by simp, by simp⟩
  | cons l E ih =>
    obtain ⟨P, hE, hP, hC⟩ := ih (fun x hx => h x (by simp [hx]))
    obtain ⟨a, b, hcut⟩ := Cut_of_mem '=' l (h l (by simp))
    obtain ⟨hl, ha⟩ := Cut_eq_some '=' l a b hcut
    refine ⟨(a, b) :: P, by rw [List.map_cons, ← hE, hl], ?_, ?_⟩
    · intro p hp
      rcases List.mem_cons.mp hp with h1 | h1
      · subst h1; exact ha
      · exact hP p h1
    · intro p hp
      rcases List.mem_cons.mp hp with h1 | h1
      · subst h1; exact Cut_append '=' _ _ ha
      · exact hC p h1

theorem parseLabel_eq (l : GoString) :
    parseLabel l = if (SplitN l '=' 2).length ≠ 2 then
        .error (.Errorf "invalid label %s: label must be in format of key=value".toList [l])
      else .ok (SplitN l '=' 2) := rfl

theorem parseSysctl_eq (l : GoString) :
    parseSysctl l = if (SplitN l '=' 2).length ≠ 2 then
        .error (.Errorf "invalid sysctl %s: sysctl must be in format of key=value".toList [l])
      else .ok (SplitN l '=' 2) := rfl

/-- C19: `parseLabels` returns an error exactly when some entry has no `=`; a list
whose entries are `k = v` with no `=` in `k` is accepted and each entry contributes the
pair of the text before its first `=` and the text after it, in order; `a=b=c` maps `a`
to `b=c`. -/
theorem parseLabels_error_iff (labels : List GoString) :
    ((∃ err, parseLabels labels = .error err) ↔ ∃ l ∈ labels, '=' ∉ l)
      ∧ (∀ P : List (GoString × GoString), (∀ p ∈ P, '=' ∉ p.1) →
          labels = P.map (fun p => p.1 ++ '=' :: p.2) →
          parseLabels labels = .ok (P.foldl (fun m p => m.set p.1 p.2) []))
      ∧ parseLabels ["a=b=c".toList] = .ok [("a".toList, "b=c".toList)] := by
  have hpairs : ∀ P : List (GoString × GoString), (∀ p ∈ P, '=' ∉ p.1) →
      labels = P.map (fun p => p.1 ++ '=' :: p.2) →
      parseLabels labels = .ok (P.foldl (fun m p => m.set p.1 p.2) []) := by
    intro P hP hlabels
    rw [hlabels]
    exact foldlM_keyValue_ok parseLabel _ parseLabel_eq P [] hP
  refine ⟨⟨?_, ?_⟩, hpairs, by decide⟩
  · rintro ⟨err, herr⟩
    by_contra hnone
    have hall : ∀ l ∈ labels, '=' ∈ l := by
      intro l hl
      by_contra hl2
      exact hnone ⟨l, hl, hl2⟩
    obtain ⟨P, hE, hP, -⟩ := entries_as_pairs labels hall
    rw [hpairs P hP hE] at herr
    cases herr
  · intro h
    exact foldlM_keyValue_error parseLabel _ parseLabel_eq labels [] h

theorem foldlM_keyValue_inv (pl : GoString → Except Error (List GoString))
    (errOf : GoString → Error)
    (hpl : ∀ l, pl l = if (SplitN l '=' 2).length ≠ 2 then .error (errOf l)
      else .ok (SplitN l '=' 2))
    (E : List GoString) :
    ∀ (init m : GoMap GoString),
      List.foldlM
          (fun (results : GoMap GoString) (l : GoString) =>
            match pl l with
            | .error err => (Except.error err : Except Error (GoMap GoString))
            | .ok fields => Except.ok (results.set (fields.getD 0 []) (fields.getD 1 [])))
          init E = Except.ok m →
      (∀ e ∈ E, '=' ∈ e)
        ∧ m = E.foldl
            (fun m e => m.set ((SplitN e '=' 2).getD 0 [], (SplitN e '=' 2).getD 1 []).1
              ((SplitN e '=' 2).getD 0 [], (SplitN e '=' 2).getD 1 []).2) init := by
  induction E with
  | nil =>
    intro init m h
    exact ⟨by simp, (Except.ok.inj h).symm⟩
  | cons l E ih =>
    intro init m h
    by_cases hl : '=' ∈ l
    · obtain ⟨a, b, hcut⟩ := Cut_of_mem '=' l hl
      have hsplit := SplitN_two_of_cut '=' l a b hcut
      have hstep : pl l = .ok [a, b] := by
        rw [hpl, hsplit]; rfl
      simp only [List.foldlM_cons, hstep, bind, Except.bind, List.getD_cons_zero,
        List.getD_cons_succ] at h
      obtain ⟨h1, h2⟩ := ih _ m h
      refine ⟨?_, ?_⟩
      · intro e he
        rcases List.mem_cons.mp he with h3 | h3
        · subst h3; exact hl
        · exact h1 e h3
      · rw [h2, List.foldl_cons, hsplit]
        rfl
    · have hstep : pl l = .error (errOf l) := by
        rw [hpl, SplitN_two_of_not_mem '=' l hl]; rfl
      simp only [List.foldlM_cons, hstep, bind, Except.bind] at h
      cases h

theorem Carries_iff (e : GoString) (he : '=' ∈ e) (k v : GoString) :
    Carries e k v ↔ ((SplitN e '=' 2).getD 0 [], (SplitN e '=' 2).getD 1 []) = (k, v) := by
  obtain ⟨a, b, hcut⟩ := Cut_of_mem '=' e he
  rw [SplitN_two_of_cut '=' e a b hcut]
  simp only [Carries, hcut, List.getD_cons_zero, List.getD_cons_succ, Option.some.injEq]

theorem SplitN_succ_ne_nil (s : GoString) (sep : Char) (n : Nat) : SplitN s sep (n + 1) ≠ [] := by
  cases n with
  | zero => simp [SplitN]
  | succ n =>
    rw [SplitN]
    split <;> simp

theorem Split_length_one (s : GoString) (sep : Char) (h : (Split s sep).length = 1) :
    sep ∉ s := by
  intro hmem
  obtain ⟨a, b, hcut⟩ := Cut_of_mem sep s hmem
  obtain ⟨hs, ha⟩ := Cut_eq_some sep s a b hcut
  rw [hs, Split_append sep a b ha, List.length_cons] at h
  have hne : Split b sep ≠ [] := SplitN_succ_ne_nil b sep _
  have : 0 < (Split b sep).length := List.length_pos.mpr hne
  omega

theorem QuotaCarries_iff (q : GoString)
    (hq : (Split q '=').length = 1 ∨ (Split q '=').length = 2) (k v : GoString) :
    QuotaCarries q k v ↔
      (if (Split q '=').length = 1 then ("/".toList, (Split q '=').getD 0 [])
       else ((Split q '=').getD 0 [], (Split q '=').getD 1 [])) = (k, v) := by
  by_cases hmem : '=' ∈ q
  · obtain ⟨a, b, hcut⟩ := Cut_of_mem '=' q hmem
    obtain ⟨hs, ha⟩ := Cut_eq_some '=' q a b hcut
    have hsplit : Split q '=' = a :: Split b '=' := by
      rw [hs]; exact Split_append '=' a b ha
    have hone : ¬ (Split q '=').length = 1 := fun h1 => Split_length_one q '=' h1 hmem
    have htwo : (Split q '=').length = 2 := hq.resolve_left hone
    have hb : (Split b '=').length = 1 := by
      rw [hsplit, List.length_cons] at htwo; omega
    have hb2 : Split b '=' = [b] := Split_of_not_mem '=' b (Split_length_one b '=' hb)
    rw [if_neg hone, hsplit, hb2]
    simp only [QuotaCarries, hcut, hmem, not_true_eq_false, false_and, false_or,
      List.getD_cons_zero, List.getD_cons_succ, Option.some.injEq]
  · have hsplit : Split q '=' = [q] := Split_of_not_mem '=' q hmem
    rw [hsplit]
    simp only [QuotaCarries, Cut_of_not_mem '=' q hmem, hmem, not_false_eq_true, true_and,
      List.length_cons, List.length_nil, if_true, List.getD_cons_zero, Prod.mk.injEq,
      or_false, reduceCtorEq]
    constructor
    · rintro ⟨h1, h2⟩; exact ⟨h1.symm, h2.symm⟩
    · rintro ⟨h1, h2⟩; exact ⟨h1.symm, h2.symm⟩

theorem foldlM_quota_inv (Q : List GoString) :
    ∀ (init m : GoMap GoString),
      List.foldlM
          (fun (quotaMaps : GoMap GoString) (quota : GoString) =>
            if quota = [] then
              (Except.error (.Errorf "invalid format for disk quota: %s".toList [quota]) :
                Except Error (GoMap GoString))
            else
              let parts := Split quota '='
              if parts.length = 1 then Except.ok (quotaMaps.set "/".toList (parts.getD 0 []))
              else if parts.length = 2 then
                Except.ok (quotaMaps.set (parts.getD 0 []) (parts.getD 1 []))
              else Except.error (.Errorf "invalid format for disk quota: %s".toList [quota]))
          init Q = Except.ok m →
      (∀ q ∈ Q, q ≠ [] ∧ ((Split q '=').length = 1 ∨ (Split q '=').length = 2))
        ∧ m = Q.foldl
            (fun m q =>
              m.set
                (if (Split q '=').length = 1 then ("/".toList, (Split q '=').getD 0 [])
                 else ((Split q '=').getD 0 [], (Split q '=').getD 1 [])).1
                (if (Split q '=').length = 1 then ("/".toList, (Split q '=').getD 0 [])
                 else ((Split q '=').getD 0 [], (Split q '=').getD 1 [])).2) init := by
  induction Q with
  | nil =>
    intro init m h
    exact ⟨by simp, (Except.ok.inj h).symm⟩
  | cons q Q ih =>
    intro init m h
    rw [List.foldlM_cons] at h
    by_cases hq : q = []
    · simp only [hq, if_true, bind, Except.bind] at h
      cases h
    · by_cases h1 : (Split q '=').length = 1
      · simp only [if_neg hq, if_pos h1, bind, Except.bind] at h
        obtain ⟨h3, h4⟩ := ih _ m h
        refine ⟨?_, ?_⟩
        · intro e he
          rcases List.mem_cons.mp he with h5 | h5
          · subst h5; exact ⟨hq, Or.inl h1⟩
          · exact h3 e h5
        · rw [h4, List.foldl_cons, if_pos h1]
      · by_cases h2 : (Split q '=').length = 2
        · simp only [if_neg hq, if_neg h1, if_pos h2, bind, Except.bind] at h
          obtain ⟨h3, h4⟩ := ih _ m h
          refine ⟨?_, ?_⟩
          · intro e he
            rcases List.mem_cons.mp he with h5 | h5
            · subst h5; exact ⟨hq, Or.inr h2⟩
            · exact h3 e h5
          · rw [h4, List.foldl_cons, if_neg h1]
        · simp only [if_neg hq, if_neg h1, if_neg h2, bind, Except.bind] at h
          cases h

/-! ## OOM score, restart-policy segments, security options -/

/-- C22: `validateOOMScore score` is an error exactly when `score` is outside the
closed range `[-1000, 1000]`. -/
theorem validateOOMScore_iff (score : Int) :
    validateOOMScore score ≠ none ↔ ¬ (-1000 ≤ score ∧ score ≤ 1000) := by
  unfold validateOOMScore
  split_ifs with h
  · simp only [ne_eq, reduceCtorEq, not_false_eq_true, true_iff]
    omega
  · simp only [ne_eq, not_true_eq_false, false_iff, not_not]
    omega

/-- C23: a restart-policy string whose first `:`-separated segment is `on-failure` and
which has more than two segments is rejected. -/
theorem parseRestartPolicy_extra_segments (s : GoString)
    (hname : (Split s ':').getD 0 [] = "on-failure".toList)
    (hlen : 2 < (Split s ':').length) :
    parseRestartPolicy s = .error (.Errorf "invalid restart policy: %s".toList [s]) := by
  have hne : ¬ s = [] := by
    intro h
    rw [h] at hname
    revert hname
    decide
  have hother : ¬ ((Split s ':').getD 0 [] = "always".toList
      ∨ (Split s ':').getD 0 [] = "unless-stopped".toList
      ∨ (Split s ':').getD 0 [] = "no".toList) := by
    rw [hname]; decide
  simp only [parseRestartPolicy, if_neg hne, if_neg hother, if_pos hname]
  rw [if_pos hlen]

theorem parseRestartPolicy_extra_segments_witness :
    parseRestartPolicy "on-failure:3:4".toList
      = .error (.Errorf "invalid restart policy: %s".toList ["on-failure:3:4".toList]) :=
  parseRestartPolicy_extra_segments "on-failure:3:4".toList (by decide) (by decide)

theorem parseSecurityOpts_ok_append (pre : List GoString) :
    ∀ (m m1 : ContainerMeta) (rest : List GoString),
      parseSecurityOpts m pre = (m1, none) →
      parseSecurityOpts m (pre ++ rest) = parseSecurityOpts m1 rest := by
  induction pre with
  | nil =>
    intro m m1 rest h
    simp only [parseSecurityOpts, Prod.mk.injEq, and_true] at h
    rw [h]; rfl
  | cons opt pre ih =>
    intro m m1 rest h
    rw [parseSecurityOpts] at h
    rw [List.cons_append, parseSecurityOpts]
    cases hopt : parseSecurityOpt m opt with
    | mk m2 e =>
      rw [hopt] at h
      cases e with
      | some err => simp at h
      | none => exact ih m2 m1 rest h

/-- C26, as the code behaves: when `parseSecurityOpts` returns an error, the options
before the first invalid one have been applied and stay applied: the metadata left
behind is the one the valid options before it produce. -/
theorem parseSecurityOpts_error_keeps_prefix (m m1 : ContainerMeta) (pre : List GoString)
    (bad : GoString) (post : List GoString) (err : Error)
    (hpre : parseSecurityOpts m pre = (m1, none))
    (hbad : (parseSecurityOpt m1 bad).2 = some err) :
    parseSecurityOpts m (pre ++ bad :: post) = (m1, some err) := by
  rw [parseSecurityOpts_ok_append pre m m1 (bad :: post) hpre, parseSecurityOpts]
  have hm : (parseSecurityOpt m1 bad).1 = m1 := by
    unfold parseSecurityOpt at hbad ⊢
    dsimp only at hbad ⊢
    split_ifs at hbad ⊢ with h1 h2 h3
    all_goals rfl
  cases hopt : parseSecurityOpt m1 bad with
  | mk m2 e =>
    rw [hopt] at hbad hm
    simp only at hbad hm
    subst hbad hm
    rfl

/-- C26, counterexample: `apparmor=foo` followed by the invalid `bad` gives an error and
leaves `AppArmorProfile` set to `foo`, not to the value before the call. -/
theorem parseSecurityOpts_partial :
    ∃ m err, parseSecurityOpts { } ["apparmor=foo".toList, "bad".toList] = (m, some err)
      ∧ m.AppArmorProfile = "foo".toList
      ∧ m.AppArmorProfile ≠ ({ } : ContainerMeta).AppArmorProfile :=
  ⟨{ AppArmorProfile := "foo".toList },
    .Errorf "invalid --security-opt %s: must be in format of key=value".toList ["bad".toList],
    by decide, rfl, by decide⟩

theorem parseSecurityOpts_error_keeps_prefix_witness :
    parseSecurityOpts { } (["seccomp=unconfined".toList] ++ "selinux=x".toList :: [])
      = ({ SeccompProfile := "unconfined".toList },
         some (.Errorf
           "invalid type %s in --security-opt %s: unknown type from apparmor and seccomp".toList
           ["selinux".toList, "selinux=x".toList])) :=
  parseSecurityOpts_error_keeps_prefix { } { SeccompProfile := "unconfined".toList }
    ["seccomp=unconfined".toList] "selinux=x".toList [] _ (by decide) (by decide)

/-! ## Cache lookup and volume removal -/

/-- C27: when the token is a key of the cache, `container` returns the entry stored under
it, whatever the name index and the store hold; when it is not, the token is resolved by
`containerID` and the cache is probed with the resolved ID; and `containerID` returns
the ID of a name-index hit whatever the cache and the store hold.  In a manager where
`web` is both a cache key and a name, `container` returns the cache entry under `web`
and `containerID` the ID the index gives. -/
theorem container_cache_precedence (mgr : ContainerManager) (token : GoString) :
    (∀ res, mgr.cache.get token = some res → ∀ (index : SafeMap) (store : Store),
        ContainerManager.container { mgr with NameToID := index, Store := store } token
          = .ok res)
      ∧ (mgr.cache.get token = none →
          mgr.container token =
            match mgr.containerID token with
            | .error err => .error err
            | .ok id =>
              match mgr.cache.get id with
              | some res => .ok res
              | none => .error (.Wrap .ErrNotfound ("container ".toList ++ token)))
      ∧ (∀ id, mgr.NameToID.Get token = some id →
          ∀ (cache : GoMap Container) (store : Store),
            ContainerManager.containerID { mgr with cache := cache, Store := store } token
              = .ok id)
      ∧ ContainerManager.container
            { NameToID := { entries := [("web".toList, "abc123".toList)] },
              cache := [("web".toList, { meta := { ID := "web".toList } }),
                        ("abc123".toList, { meta := { ID := "abc123".toList } })] }
            "web".toList = .ok { meta := { ID := "web".toList } }
      ∧ ContainerManager.containerID
            { NameToID := { entries := [("web".toList, "abc123".toList)] },
              cache := [("web".toList, { meta := { ID := "web".toList } }),
                        ("abc123".toList, { meta := { ID := "abc123".toList } })] }
            "web".toList = .ok "abc123".toList := by
  refine ⟨?_, ?_, ?_, by decide, by decide⟩
  · intro res hres index store
    simp only [ContainerManager.container, hres]
  · intro hmiss
    simp only [ContainerManager.container, hmiss]
  · intro id hid cache store
    simp only [ContainerManager.containerID, hid]

/-- C28: `Remove` returns an error exactly when the core removal fails with an error
whose text contains `not found`, and that error is `ErrNotfound` wrapped with the text;
on any other failure of the core removal, as on success, it returns nil. -/
theorem VolumeManager_Remove_iff (vm : VolumeManager) (name : GoString) :
    (vm.Remove name ≠ none ↔
        ∃ err, vm.core.RemoveVolume name = some err
          ∧ Contains (vm.core.ErrorText err) "not found".toList = true)
      ∧ (∀ err, vm.core.RemoveVolume name = some err →
          Contains (vm.core.ErrorText err) "not found".toList = true →
          vm.Remove name = some (.Wrap .ErrNotfound (vm.core.ErrorText err)))
      ∧ (∀ err, vm.core.RemoveVolume name = some err →
          Contains (vm.core.ErrorText err) "not found".toList = false →
          vm.Remove name = none)
      ∧ (vm.core.RemoveVolume name = none → vm.Remove name = none) := by
  refine ⟨?_, ?_, ?_, ?_⟩
  · unfold VolumeManager.Remove
    cases hcore : vm.core.RemoveVolume name with
    | none => simp
    | some err =>
      by_cases hc : Contains (vm.core.ErrorText err) "not found".toList = true
      · simp only [if_pos hc]
        constructor
        · intro _; exact ⟨err, rfl, hc⟩
        · intro _; exact fun h => Option.noConfusion h
      · simp only [if_neg hc]
        constructor
        · intro h; exact absurd rfl h
        · rintro ⟨e, he, hce⟩
          cases he
          exact absurd hce hc
  · intro err hcore hc
    simp only [VolumeManager.Remove, hcore, if_pos hc]
  · intro err hcore hc
    simp only [VolumeManager.Remove, hcore, hc, Bool.false_eq_true, if_false]
  · intro hcore
    simp only [VolumeManager.Remove, hcore]

/-! ## Disk quotas -/

theorem Split_length_aux (sep : Char) (n : Nat) :
    ∀ s : GoString, s.length = n → (Split s sep).length = Count s sep + 1 := by
  induction n using Nat.strong_induction_on with
  | _ n ih =>
    intro s hn
    by_cases hmem : sep ∈ s
    · obtain ⟨a, b, hcut⟩ := Cut_of_mem sep s hmem
      obtain ⟨hs, ha⟩ := Cut_eq_some sep s a b hcut
      have hb : b.length < n := by
        rw [← hn, hs, List.length_append, List.length_cons]; omega
      have hrec := ih b.length hb b rfl
      rw [hs, Split_append sep a b ha, List.length_cons, hrec]
      simp [Count, List.count_eq_zero_of_not_mem ha]
    · rw [Split_of_not_mem sep s hmem]
      simp [Count, List.count_eq_zero_of_not_mem hmem]

theorem Split_length (sep : Char) (s : GoString) :
    (Split s sep).length = Count s sep + 1 :=
  Split_length_aux sep s.length s rfl

theorem foldlM_quota_ok (Q : List GoString) :
    ∀ (init : GoMap GoString), (∀ q ∈ Q, q ≠ [] ∧ Count q '=' ≤ 1) →
      List.foldlM
          (fun (quotaMaps : GoMap GoString) (quota : GoString) =>
            if quota = [] then
              (Except.error (.Errorf "invalid format for disk quota: %s".toList [quota]) :
                Except Error (GoMap GoString))
            else
              let parts := Split quota '='
              if parts.length = 1 then Except.ok (quotaMaps.set "/".toList (parts.getD 0 []))
              else if parts.length = 2 then
                Except.ok (quotaMaps.set (parts.getD 0 []) (parts.getD 1 []))
              else Except.error (.Errorf "invalid format for disk quota: %s".toList [quota]))
          init Q
        = Except.ok (Q.foldl
            (fun m q =>
              match Cut '=' q with
              | none => m.set "/".toList q
              | some (k, v) => m.set k v) init) := by
  induction Q with
  | nil => intro init _; rfl
  | cons q Q ih =>
    intro init hQ
    obtain ⟨hq, hcount⟩ := hQ q (by simp)
    have hrest : ∀ x ∈ Q, x ≠ [] ∧ Count x '=' ≤ 1 := fun x hx => hQ x (by simp [hx])
    rw [List.foldlM_cons, List.foldl_cons]
    by_cases hmem : '=' ∈ q
    · obtain ⟨a, b, hcut⟩ := Cut_of_mem '=' q hmem
      obtain ⟨hs, ha⟩ := Cut_eq_some '=' q a b hcut
      have hb : '=' ∉ b := by
        intro hbm
        have h1 : 0 < List.count '=' b := List.count_pos_iff.mpr hbm
        have h2 : Count q '=' = List.count '=' b + 1 := by
          rw [hs]
          simp [Count, List.count_eq_zero_of_not_mem ha]
        omega
      have hsplit : Split q '=' = [a, b] := by
        rw [hs, Split_append '=' a b ha, Split_of_not_mem '=' b hb]
      simp only [if_neg hq, hsplit, List.length_cons, List.length_nil, hcut,
        List.getD_cons_zero, List.getD_cons_succ, bind, Except.bind]
      exact ih _ hrest
    · have hsplit : Split q '=' = [q] := Split_of_not_mem '=' q hmem
      simp only [if_neg hq, hsplit, List.length_cons, List.length_nil,
        Cut_of_not_mem '=' q hmem, List.getD_cons_zero, bind, Except.bind, if_true]
      exact ih _ hrest

/-- C21: `parseDiskQuota` returns an error exactly when some entry is empty or has more
than one `=`; an accepted list is stored entry by entry, a bare value under the key `/`
and `key=value` under `key`. -/
theorem parseDiskQuota_error_iff (quotas : List GoString) :
    ((∃ err, parseDiskQuota quotas = .error err) ↔
        ∃ q ∈ quotas, q = [] ∨ 2 ≤ Count q '=')
      ∧ ((∀ q ∈ quotas, q ≠ [] ∧ Count q '=' ≤ 1) →
          parseDiskQuota quotas
            = .ok (quotas.foldl
                (fun m q =>
                  match Cut '=' q with
                  | none => m.set "/".toList q
                  | some (k, v) => m.set k v) []))
      ∧ parseDiskQuota ["10g".toList, "/data=5g".toList]
          = .ok [("/".toList, "10g".toList), ("/data".toList, "5g".toList)]
      ∧ (∃ err, parseDiskQuota ["a=b=c".toList] = .error err) := by
  have hok := foldlM_quota_ok quotas []
  refine ⟨⟨?_, ?_⟩, hok, by decide,
    ⟨.Errorf "invalid format for disk quota: %s".toList ["a=b=c".toList], by decide⟩⟩
  · rintro ⟨err, herr⟩
    by_contra hnone
    have hall : ∀ q ∈ quotas, q ≠ [] ∧ Count q '=' ≤ 1 := by
      intro q hq
      constructor
      · intro h0; exact hnone ⟨q, hq, Or.inl h0⟩
      · by_contra h1; exact hnone ⟨q, hq, Or.inr (by omega)⟩
    have := hok hall
    rw [parseDiskQuota] at herr
    rw [this] at herr
    cases herr
  · rintro ⟨q, hq, hbad⟩
    cases hres : parseDiskQuota quotas with
    | error err => exact ⟨err, rfl⟩
    | ok m =>
      exfalso
      obtain ⟨hall, -⟩ := foldlM_quota_inv quotas [] m hres
      obtain ⟨hne, hlen⟩ := hall q hq
      rw [Split_length] at hlen
      rcases hbad with hbad | hbad
      · exact hne hbad
      · omega

/-! ## Process list -/

theorem pidIndexLoop_isSome (ts : List GoString) :
    ∀ (i : Nat) (idx : Option Nat), (idx.isSome = true ∨ "PID".toList ∈ ts) →
      (pidIndexLoop ts i idx).isSome = true := by
  induction ts with
  | nil =>
    intro i idx h
    rcases h with h | h
    · simpa [pidIndexLoop] using h
    · simp at h
  | cons name rest ih =>
    intro i idx h
    rw [pidIndexLoop]
    apply ih
    by_cases hn : name = "PID".toList
    · left; rw [if_pos hn]; rfl
    · rw [if_neg hn]
      rcases h with h | h
      · exact Or.inl h
      · rcases List.mem_cons.mp h with h1 | h1
        · exact absurd h1.symm hn
        · exact Or.inr h1

theorem pidIndexLoop_lt (ts : List GoString) :
    ∀ (i : Nat) (idx : Option Nat) (j : Nat), (∀ k, idx = some k → k < i) →
      pidIndexLoop ts i idx = some j → j < i + ts.length := by
  induction ts with
  | nil =>
    intro i idx j hidx h
    rw [pidIndexLoop] at h
    have := hidx j h
    simpa using this
  | cons name rest ih =>
    intro i idx j hidx h
    rw [pidIndexLoop] at h
    have h2 := ih (i + 1) _ j (by
      intro k hk
      by_cases hn : name = "PID".toList
      · rw [if_pos hn] at hk
        cases hk
        omega
      · rw [if_neg hn] at hk
        have := hidx k hk
        omega) h
    rw [List.length_cons]
    omega

theorem appendProcess_isSome (n : Nat) (st : LineState) (hn : 1 ≤ n)
    (hlen : n - 1 ≤ st.fields.length) :
    ∃ st1, appendProcess n st = some st1 ∧ st1.fields.length = st.fields.length := by
  have h0 : ¬ (n = 0 ∨ n - 1 > st.fields.length) := by omega
  unfold appendProcess
  rw [if_neg h0]
  dsimp only
  by_cases h1 : n - 1 < st.fields.length
  · rw [if_pos h1]
    exact ⟨_, rfl, by simp⟩
  · rw [if_neg h1]
    exact ⟨_, rfl, rfl⟩

theorem matchPids_isSome (n : Nat) (p : Int) (hn : 1 ≤ n) (pids : List Int) :
    ∀ st : LineState, n - 1 ≤ st.fields.length →
      ∃ st1, matchPids n p pids st = some st1 ∧ st1.fields.length = st.fields.length := by
  induction pids with
  | nil => intro st _; exact ⟨st, rfl, rfl⟩
  | cons pid pids ih =>
    intro st hlen
    rw [matchPids]
    by_cases hp : pid = p
    · rw [if_pos hp]
      obtain ⟨st1, h1, h2⟩ := appendProcess_isSome n st hn hlen
      rw [h1]
      obtain ⟨st2, h3, h4⟩ := ih st1 (by omega)
      exact ⟨st2, h3, by omega⟩
    · rw [if_neg hp]
      exact ih st hlen

theorem psLines_isSome (n pidIndex : Nat) (pids : List Int) (hn : 1 ≤ n)
    (hidx : pidIndex < n) (lines : List GoString) :
    ∀ procs : List (List GoString),
      (∀ line ∈ lines, line ≠ [] → n ≤ (fieldsASCII line).length) →
      ∃ r, psLines n pidIndex pids lines procs = some r := by
  induction lines with
  | nil => intro procs _; exact ⟨_, rfl⟩
  | cons line rest ih =>
    intro procs hall
    have hrest : ∀ l ∈ rest, l ≠ [] → n ≤ (fieldsASCII l).length :=
      fun l hl => hall l (by simp [hl])
    rw [psLines]
    by_cases h0 : line.length = 0
    · rw [if_pos h0]
      exact ih procs hrest
    · rw [if_neg h0]
      have hne : line ≠ [] := fun h => h0 (by rw [h]; rfl)
      have hlen := hall line (by simp) hne
      have h1 : ¬ pidIndex ≥ (fieldsASCII line).length := by omega
      dsimp only
      rw [if_neg h1]
      cases hatoi : Atoi ((fieldsASCII line).getD pidIndex []) with
      | error err => exact ⟨_, rfl⟩
      | ok p =>
        obtain ⟨st1, h2, -⟩ := matchPids_isSome n p hn pids { fields := fieldsASCII line }
          (by simp only; omega)
        simp only [h2]
        exact ih _ hrest

/-- C29: when the header line has a `PID` title and every non-empty line after it has at
least as many fields as the header has titles, no index or slice expression of
`parsePSOutput` is out of range: the function returns, a result or an error. -/
theorem parsePSOutput_no_panic (output : GoString) (pids : List Int)
    (hpid : "PID".toList ∈ fieldsASCII ((Split output '\n').getD 0 []))
    (hfields : ∀ line ∈ (Split output '\n').drop 1, line ≠ [] →
      (fieldsASCII ((Split output '\n').getD 0 [])).length ≤ (fieldsASCII line).length) :
    ∃ r, parsePSOutput output pids = some r := by
  unfold parsePSOutput
  dsimp only
  have hsome := pidIndexLoop_isSome (fieldsASCII ((Split output '\n').getD 0 [])) 0 none
    (Or.inr hpid)
  cases hidx : pidIndexLoop (fieldsASCII ((Split output '\n').getD 0 [])) 0 none with
  | none => rw [hidx] at hsome; simp at hsome
  | some pidIndex =>
    have hlt := pidIndexLoop_lt _ 0 none pidIndex (by intro k hk; cases hk) hidx
    rw [Nat.zero_add] at hlt
    obtain ⟨r, hr⟩ := psLines_isSome (fieldsASCII ((Split output '\n').getD 0 [])).length
      pidIndex pids (by omega) hlt ((Split output '\n').drop 1) [] hfields
    simp only [hr]
    cases r with
    | error err => exact ⟨_, rfl⟩
    | ok procs => exact ⟨_, rfl⟩

theorem parsePSOutput_no_panic_witness :
    ∃ r, parsePSOutput "UID PID CMD\nroot 1 sh -c sleep\n\nroot x ps\n".toList [1] = some r := by
  have hsplit : Split "UID PID CMD\nroot 1 sh -c sleep\n\nroot x ps\n".toList '\n'
      = ["UID PID CMD".toList, "root 1 sh -c sleep".toList, [], "root x ps".toList, []] := by
    decide
  refine parsePSOutput_no_panic _ [1] (by decide) ?_
  rw [hsplit]
  intro line hline hne
  simp only [List.drop_succ_cons, List.drop_zero, List.mem_cons, List.mem_singleton,
    List.mem_nil_iff, or_false] at hline
  rcases hline with rfl | rfl | rfl | rfl
  · decide
  · exact absurd rfl hne
  · decide
  · exact absurd rfl hne

theorem matchPids_not_mem (n : Nat) (p : Int) (pids : List Int) (hp : p ∉ pids) :
    ∀ st : LineState, matchPids n p pids st = some st := by
  induction pids with
  | nil => intro st; rfl
  | cons pid pids ih =>
    intro st
    have h1 : ¬ pid = p := fun h => hp (by simp [h])
    have h2 : p ∉ pids := fun h => hp (by simp [h])
    rw [matchPids, if_neg h1]
    exact ih h2 st

theorem matchPids_nodup (n : Nat) (p : Int) (pids : List Int) (hnodup : pids.Nodup)
    (hp : p ∈ pids) :
    ∀ st : LineState, matchPids n p pids st = appendProcess n st := by
  induction pids with
  | nil => simp at hp
  | cons pid pids ih =>
    intro st
    rw [List.nodup_cons] at hnodup
    rw [matchPids]
    by_cases h1 : pid = p
    · rw [if_pos h1]
      have h2 : p ∉ pids := by rw [← h1]; exact hnodup.1
      cases happ : appendProcess n st with
      | none => rfl
      | some st1 => exact matchPids_not_mem n p pids h2 st1
    · rw [if_neg h1]
      have h2 : p ∈ pids := by
        rcases List.mem_cons.mp hp with h | h
        · exact absurd h.symm h1
        · exact h
      exact ih hnodup.2 h2 st

theorem take_succ_set {α : Type} (l : List α) :
    ∀ (k : Nat) (x : α), k < l.length → (l.set k x).take (k + 1) = l.take k ++ [x] := by
  induction l with
  | nil => intro k x h; simp at h
  | cons a l ih =>
    intro k x h
    cases k with
    | zero => simp
    | succ k =>
      have hk : k < l.length := by simpa using h
      simp [ih k x hk]

theorem appendProcess_rows (n : Nat) (fields : List GoString) (st1 : LineState)
    (h : appendProcess n { fields := fields } = some st1) :
    rowsOf n st1 = [fields.take (n - 1) ++ [Join (fields.drop (n - 1)) " ".toList]]
      ∧ (fields.take (n - 1) ++ [Join (fields.drop (n - 1)) " ".toList]).length = n := by
  unfold appendProcess at h
  dsimp only at h
  by_cases h0 : n = 0 ∨ n - 1 > fields.length
  · rw [if_pos h0] at h; cases h
  · rw [if_neg h0] at h
    obtain ⟨k, hk⟩ : ∃ k, n = k + 1 := ⟨n - 1, by omega⟩
    subst hk
    simp only [Nat.add_sub_cancel] at h h0 ⊢
    have hlen : (fields.take k ++ [Join (fields.drop k) " ".toList]).length = k + 1 := by
      rw [List.length_append, List.length_take, List.length_singleton]
      omega
    refine ⟨?_, hlen⟩
    by_cases h1 : k < fields.length
    · rw [if_pos h1] at h
      cases h
      simp only [rowsOf, List.nil_append, List.map_cons, List.map_nil]
      rw [take_succ_set fields k _ h1]
    · rw [if_neg h1] at h
      cases h
      simp [rowsOf]

theorem psLines_rows (n pidIndex : Nat) (pids : List Int) (hnodup : pids.Nodup)
    (lines : List GoString) :
    ∀ (procs r : List (List GoString)),
      psLines n pidIndex pids lines procs = some (.ok r) →
      r = procs ++ (lines.filter (psSelected pidIndex pids)).map (psRow n)
        ∧ ∀ row ∈ (lines.filter (psSelected pidIndex pids)).map (psRow n), row.length = n := by
  induction lines with
  | nil =>
    intro procs r h
    rw [psLines] at h
    injection h with h
    injection h with h
    subst h
    simp
  | cons line rest ih =>
    intro procs r h
    rw [psLines] at h
    by_cases h0 : line.length = 0
    · rw [if_pos h0] at h
      have hsel : psSelected pidIndex pids line = false := by
        have : line = [] := List.length_eq_zero.mp h0
        subst this
        rfl
      rw [List.filter_cons, hsel]
      exact ih procs r h
    · rw [if_neg h0] at h
      dsimp only at h
      by_cases h1 : pidIndex ≥ (fieldsASCII line).length
      · rw [if_pos h1] at h; cases h
      · rw [if_neg h1] at h
        have hne : line.isEmpty = false := by
          cases line with
          | nil => exact absurd rfl h0
          | cons c cs => rfl
        cases hatoi : Atoi ((fieldsASCII line).getD pidIndex []) with
        | error err =>
          rw [hatoi] at h
          injection h with h
          cases h
        | ok p =>
          rw [hatoi] at h
          dsimp only at h
          by_cases hp : p ∈ pids
          · have hsel : psSelected pidIndex pids line = true := by
              unfold psSelected
              rw [hne, hatoi]
              simp [hp]
            rw [matchPids_nodup n p pids hnodup hp] at h
            cases happ : appendProcess n { fields := fieldsASCII line } with
            | none => rw [happ] at h; cases h
            | some st1 =>
              rw [happ] at h
              dsimp only at h
              obtain ⟨hrows, hrowlen⟩ := appendProcess_rows n _ st1 happ
              obtain ⟨hr, hlen⟩ := ih _ r h
              rw [List.filter_cons, hsel]
              simp only [if_true, List.map_cons]
              refine ⟨?_, ?_⟩
              · rw [hr, hrows, List.append_assoc]
                rfl
              · intro row hrow
                rcases List.mem_cons.mp hrow with h2 | h2
                · rw [h2]; exact hrowlen
                · exact hlen row h2
          · have hsel : psSelected pidIndex pids line = false := by
              unfold psSelected
              rw [hne, hatoi]
              simp [hp]
            rw [matchPids_not_mem n p pids hp] at h
            dsimp only at h
            obtain ⟨hr, hlen⟩ := ih _ r h
            rw [List.filter_cons, hsel]
            refine ⟨?_, hlen⟩
            rw [hr]
            simp [rowsOf]

theorem appendProcess_inv (n : Nat) (st st1 : LineState)
    (hinv : ∀ row ∈ st.rows,
      match row with
      | .shared => n ≤ st.fields.length
      | .fresh cells => cells.length = n)
    (h : appendProcess n st = some st1) :
    ∀ row ∈ st1.rows,
      match row with
      | .shared => n ≤ st1.fields.length
      | .fresh cells => cells.length = n := by
  unfold appendProcess at h
  dsimp only at h
  by_cases h0 : n = 0 ∨ n - 1 > st.fields.length
  · rw [if_pos h0] at h; cases h
  · rw [if_neg h0] at h
    by_cases h1 : n - 1 < st.fields.length
    · rw [if_pos h1] at h
      cases h
      intro row hrow
      rcases List.mem_append.mp hrow with h2 | h2
      · have := hinv row h2
        cases row with
        | shared =>
          simp only [List.length_set] at this ⊢
          exact this
        | fresh cells => exact this
      · rw [List.mem_singleton] at h2
        subst h2
        simp only [List.length_set]
        omega
    · rw [if_neg h1] at h
      cases h
      intro row hrow
      rcases List.mem_append.mp hrow with h2 | h2
      · exact hinv row h2
      · rw [List.mem_singleton] at h2
        subst h2
        simp only [List.length_append, List.length_take, List.length_singleton]
        omega

theorem matchPids_inv (n : Nat) (p : Int) (pids : List Int) :
    ∀ (st st1 : LineState),
      (∀ row ∈ st.rows,
        match row with
        | .shared => n ≤ st.fields.length
        | .fresh cells => cells.length = n) →
      matchPids n p pids st = some st1 →
      ∀ row ∈ st1.rows,
        match row with
        | .shared => n ≤ st1.fields.length
        | .fresh cells => cells.length = n := by
  induction pids with
  | nil =>
    intro st st1 hinv h
    rw [matchPids] at h
    cases h
    exact hinv
  | cons pid pids ih =>
    intro st st1 hinv h
    rw [matchPids] at h
    by_cases hp : pid = p
    · rw [if_pos hp] at h
      cases happ : appendProcess n st with
      | none => rw [happ] at h; cases h
      | some st2 =>
        rw [happ] at h
        exact ih st2 st1 (appendProcess_inv n st st2 hinv happ) h
    · rw [if_neg hp] at h
      exact ih st st1 hinv h

theorem rowsOf_length (n : Nat) (st : LineState)
    (hinv : ∀ row ∈ st.rows,
      match row with
      | .shared => n ≤ st.fields.length
      | .fresh cells => cells.length = n) :
    ∀ cells ∈ rowsOf n st, cells.length = n := by
  intro cells hcells
  unfold rowsOf at hcells
  obtain ⟨row, hrow, hcell⟩ := List.mem_map.mp hcells
  have := hinv row hrow
  cases row with
  | shared =>
    simp only at this hcell
    rw [← hcell, List.length_take]
    omega
  | fresh c =>
    simp only at this hcell
    rw [← hcell]
    exact this

theorem psLines_row_length (n pidIndex : Nat) (pids : List Int) (lines : List GoString) :
    ∀ (procs r : List (List GoString)), (∀ row ∈ procs, row.length = n) →
      psLines n pidIndex pids lines procs = some (.ok r) →
      ∀ row ∈ r, row.length = n := by
  induction lines with
  | nil =>
    intro procs r hprocs h
    rw [psLines] at h
    injection h with h
    injection h with h
    subst h
    exact hprocs
  | cons line rest ih =>
    intro procs r hprocs h
    rw [psLines] at h
    by_cases h0 : line.length = 0
    · rw [if_pos h0] at h
      exact ih procs r hprocs h
    · rw [if_neg h0] at h
      dsimp only at h
      by_cases h1 : pidIndex ≥ (fieldsASCII line).length
      · rw [if_pos h1] at h; cases h
      · rw [if_neg h1] at h
        cases hatoi : Atoi ((fieldsASCII line).getD pidIndex []) with
        | error err =>
          rw [hatoi] at h
          injection h with h
          cases h
        | ok p =>
          rw [hatoi] at h
          dsimp only at h
          cases hmatch : matchPids n p pids { fields := fieldsASCII line } with
          | none => rw [hmatch] at h; cases h
          | some st =>
            rw [hmatch] at h
            dsimp only at h
            have hinv := matchPids_inv n p pids { fields := fieldsASCII line } st
              (by intro row hrow; simp at hrow) hmatch
            have hrows := rowsOf_length n st hinv
            refine ih _ r ?_ h
            intro row hrow
            rcases List.mem_append.mp hrow with h2 | h2
            · exact hprocs row h2
            · exact hrows row h2

/-- C25, as the code behaves: when `parsePSOutput` returns a process list, its titles are
the fields of the first line and every row has as many fields as there are titles, for
every pid list; and when no pid is repeated in the pid list, the rows are, in output
order, those of the non-empty lines after the header whose PID field is a listed pid,
each with its fields beyond the last title merged into the last field, joined by single
blanks. -/
theorem parsePSOutput_rows (output : GoString) (pids : List Int)
    (procList : ContainerProcessList)
    (h : parsePSOutput output pids = some (.ok procList)) :
    procList.Titles = fieldsASCII ((Split output '\n').getD 0 [])
      ∧ (∀ row ∈ procList.Processes, row.length = procList.Titles.length)
      ∧ (pids.Nodup →
          ∃ pidIndex, pidIndexLoop procList.Titles 0 none = some pidIndex
            ∧ pidIndex < procList.Titles.length
            ∧ procList.Processes
                = (((Split output '\n').drop 1).filter (psSelected pidIndex pids)).map
                    (psRow procList.Titles.length)) := by
  unfold parsePSOutput at h
  dsimp only at h
  cases hidx : pidIndexLoop (fieldsASCII ((Split output '\n').getD 0 [])) 0 none with
  | none =>
    rw [hidx] at h
    injection h with h
    cases h
  | some pidIndex =>
    rw [hidx] at h
    dsimp only at h
    have hlt := pidIndexLoop_lt _ 0 none pidIndex (by intro k hk; cases hk) hidx
    rw [Nat.zero_add] at hlt
    cases hlines : psLines (fieldsASCII ((Split output '\n').getD 0 [])).length pidIndex pids
        ((Split output '\n').drop 1) [] with
    | none => rw [hlines] at h; cases h
    | some res =>
      rw [hlines] at h
      cases res with
      | error err =>
        dsimp only at h
        injection h with h
        cases h
      | ok procs =>
        dsimp only at h
        injection h with h
        injection h with h
        subst h
        refine ⟨rfl, ?_, ?_⟩
        · exact psLines_row_length _ pidIndex pids _ [] procs (by intro row hrow; simp at hrow)
            hlines
        · intro hnodup
          obtain ⟨hr, -⟩ := psLines_rows _ pidIndex pids hnodup _ [] procs hlines
          rw [List.nil_append] at hr
          exact ⟨pidIndex, hidx, hlt, hr⟩

/-- C25, counterexample: with the pid 1 listed twice, the one line of pid 1 gives two
rows. -/
theorem parsePSOutput_repeated_pid :
    parsePSOutput "PID CMD\n1 sh\n".toList [1, 1]
      = some (.ok { Titles := ["PID".toList, "CMD".toList],
                    Processes := [["1".toList, "sh".toList], ["1".toList, "sh".toList]] }) := by
  decide

theorem parsePSOutput_rows_witness :
    ["UID".toList, "PID".toList, "CMD".toList]
        = fieldsASCII ((Split "UID PID CMD\nroot 1 sh -c sleep\nroot 22 ps\n".toList '\n').getD 0 [])
      ∧ (∀ row ∈ [["root".toList, "1".toList, "sh -c sleep".toList]],
          row.length = ["UID".toList, "PID".toList, "CMD".toList].length)
      ∧ ∃ pidIndex, pidIndexLoop ["UID".toList, "PID".toList, "CMD".toList] 0 none = some pidIndex
          ∧ pidIndex < ["UID".toList, "PID".toList, "CMD".toList].length
          ∧ [["root".toList, "1".toList, "sh -c sleep".toList]]
              = (((Split "UID PID CMD\nroot 1 sh -c sleep\nroot 22 ps\n".toList '\n').drop 1).filter
                    (psSelected pidIndex [1, 7])).map
                  (psRow ["UID".toList, "PID".toList, "CMD".toList].length) :=
  have h := parsePSOutput_rows "UID PID CMD\nroot 1 sh -c sleep\nroot 22 ps\n".toList [1, 7]
    { Titles := ["UID".toList, "PID".toList, "CMD".toList],
      Processes := [["root".toList, "1".toList, "sh -c sleep".toList]] }
    (by decide)
  ⟨h.1, h.2.1, h.2.2 (by decide)⟩

/-! ## Later duplicates win -/

/-- C20: for each of `parseLabels`, `parseSysctls` and `parseDiskQuota`: the map
returned for an accepted list has exactly the keys that occur in the entries, each once,
and maps each key to the value of the last entry of the list that carries it; and the
lists of well-formed entries (each with a `=` for labels and sysctls; each non-empty
with at most one `=` for disk quotas) are accepted, with such a map.  So `a=1`, `b=2`,
`a=3` gives `a` the value `3`, for labels and for sysctls, and of two bare disk quotas the
later one is kept under `/`. -/
theorem parsers_last_wins :
    (∀ labels m, parseLabels labels = .ok m → LastWins Carries labels m)
      ∧ (∀ labels, (∀ l ∈ labels, '=' ∈ l) →
          ∃ m, parseLabels labels = .ok m ∧ LastWins Carries labels m)
      ∧ (∀ sysctls m, parseSysctls sysctls = .ok m → LastWins Carries sysctls m)
      ∧ (∀ sysctls, (∀ l ∈ sysctls, '=' ∈ l) →
          ∃ m, parseSysctls sysctls = .ok m ∧ LastWins Carries sysctls m)
      ∧ (∀ quotas m, parseDiskQuota quotas = .ok m → LastWins QuotaCarries quotas m)
      ∧ (∀ quotas, (∀ q ∈ quotas, q ≠ [] ∧ Count q '=' ≤ 1) →
          ∃ m, parseDiskQuota quotas = .ok m ∧ LastWins QuotaCarries quotas m)
      ∧ parseLabels ["a=1".toList, "b=2".toList, "a=3".toList]
          = .ok [("a".toList, "3".toList), ("b".toList, "2".toList)]
      ∧ parseSysctls ["a=1".toList, "b=2".toList, "a=3".toList]
          = .ok [("a".toList, "3".toList), ("b".toList, "2".toList)]
      ∧ parseDiskQuota ["10g".toList, "/data=5g".toList, "20g".toList]
          = .ok [("/".toList, "20g".toList), ("/data".toList, "5g".toList)] := by
  have hlabels : ∀ labels m, parseLabels labels = .ok m → LastWins Carries labels m := by
    intro labels m h
    obtain ⟨hall, hm⟩ := foldlM_keyValue_inv parseLabel _ parseLabel_eq labels [] m h
    rw [hm]
    exact lastWins_foldl Carries _ labels (fun e he k v => Carries_iff e (hall e he) k v)
  have hsysctls : ∀ sysctls m, parseSysctls sysctls = .ok m → LastWins Carries sysctls m := by
    intro sysctls m h
    obtain ⟨hall, hm⟩ := foldlM_keyValue_inv parseSysctl _ parseSysctl_eq sysctls [] m h
    rw [hm]
    exact lastWins_foldl Carries _ sysctls (fun e he k v => Carries_iff e (hall e he) k v)
  have hquotas : ∀ quotas m, parseDiskQuota quotas = .ok m →
      LastWins QuotaCarries quotas m := by
    intro quotas m h
    obtain ⟨hall, hm⟩ := foldlM_quota_inv quotas [] m h
    rw [hm]
    exact lastWins_foldl QuotaCarries _ quotas
      (fun e he k v => QuotaCarries_iff e (hall e he).2 k v)
  refine ⟨hlabels, ?_, hsysctls, ?_, hquotas, ?_, by decide, by decide, by decide⟩
  · intro labels hall
    obtain ⟨P, hE, hP, -⟩ := entries_as_pairs labels hall
    have hok : parseLabels labels = .ok (P.foldl (fun m p => m.set p.1 p.2) []) := by
      rw [hE]
      exact foldlM_keyValue_ok parseLabel _ parseLabel_eq P [] hP
    exact ⟨_, hok, hlabels _ _ hok⟩
  · intro sysctls hall
    obtain ⟨P, hE, hP, -⟩ := entries_as_pairs sysctls hall
    have hok : parseSysctls sysctls = .ok (P.foldl (fun m p => m.set p.1 p.2) []) := by
      rw [hE]
      exact foldlM_keyValue_ok parseSysctl _ parseSysctl_eq P [] hP
    exact ⟨_, hok, hsysctls _ _ hok⟩
  · intro quotas hall
    have hok := foldlM_quota_ok quotas [] hall
    exact ⟨_, hok, hquotas _ _ hok⟩

end Pouch
